import Mathlib

/-!
Shallow embedding of the OpenRCT2 title-sequence scripting subsystem
(`src/openrct2/title/TitleSequence.cpp`): the line tokenizer
(`LegacyScriptGetLine`), the command decoder (`LegacyScriptRead`), the
command encoder (`LegacyScriptWrite`) and the sequence mutation
operations (`TitleSequenceAddPark`, `TitleSequenceRenamePark`,
`TitleSequenceRemovePark`, `TitleSequenceGetParkHandle`).

Strings (`std::string`, `char` buffers) are modelled as `List Char`;
machine integers are modelled as `Nat`/`Int` with explicit masking where
the code masks.  Backend I/O (filesystem / zip archive) is modelled by
boolean oracles passed to the operations: each oracle records whether
the corresponding I/O primitive succeeds, and the embedded function
mirrors the control flow of the source for both outcomes.
-/

namespace TitleSeq

/-- A C string / `std::string`, modelled as its list of characters. -/
abbrev Chars := List Char

/-- ASCII lower-casing of one character, as done by `_stricmp` /
`String::Equals(…, ignoreCase = true)`. -/
def toLowerAscii (c : Char) : Char :=
  if 'A' ≤ c ∧ c ≤ 'Z' then Char.ofNat (c.toNat + 32) else c

/-- Case-insensitive string equality (`_stricmp(a, b) == 0`,
`String::Equals(a, b, true)`). -/
def strCaseEq (a b : Chars) : Bool :=
  a.map toLowerAscii == b.map toLowerAscii

/-- `isspace` of the C locale: the characters skipped by `atoi`. -/
def isSpaceC (c : Char) : Bool :=
  c = ' ' || c = '\t' || c = '\n' || c = '\x0b' || c = '\x0c' || c = '\r'

/-- Is `c` a decimal digit. -/
def isDigitC (c : Char) : Bool :=
  '0' ≤ c && c ≤ '9'

/-- Accumulate the leading decimal digits of `s` onto `acc`
(`atoi`'s digit loop). -/
def atoiDigits (acc : Nat) : Chars → Nat
  | [] => acc
  | c :: cs => if isDigitC c then atoiDigits (acc * 10 + (c.toNat - '0'.toNat)) cs else acc

/-- `atoi`: skip leading whitespace, read an optional sign, then the
leading run of decimal digits; anything else (including no digits at
all) contributes nothing, so non-numeric text parses as `0`. -/
def atoi (s : Chars) : Int :=
  match s.dropWhile (fun c => isSpaceC c) with
  | '-' :: rest => -(atoiDigits 0 rest : Int)
  | '+' :: rest => (atoiDigits 0 rest : Int)
  | rest => (atoiDigits 0 rest : Int)

/-- `atoi(s) & 0xFF` where the `&` acts on the two's-complement bits:
the result is the unsigned 8-bit value `atoi(s) mod 256`. -/
def atoiMask8 (s : Chars) : Nat :=
  ((atoi s) % 256).toNat

/-- `atoi(s) & 0xFFFF`: the unsigned 16-bit value `atoi(s) mod 65536`. -/
def atoiMask16 (s : Chars) : Nat :=
  ((atoi s) % 65536).toNat

/-- Modelled from the spec: the reserved sentinel for `TitleCommand
.SaveIndex` (`SAVE_INDEX_INVALID` from the missing header
`TitleSequence.h`).  `SaveIndex` is an 8-bit unsigned field (the source
casts with `static_cast<uint8_t>`), and the spec describes the sentinel
as "distinct from any valid index, e.g. the maximum representable
value", so it is the largest `uint8_t` value, 255. -/
def SAVE_INDEX_INVALID : Nat := 255

/-- Modelled from the spec: capacity of the `TitleCommand.Scenario`
fixed-size buffer (`utf8 Scenario[64]` in the missing header); the
spec only says "bounded-length copy into a fixed-capacity field", so
the historical 64-byte buffer (63 characters plus terminator) is used. -/
def SCENARIO_CAPACITY : Nat := 63

/-- Modelled from the spec: capacity of `TitleCommand.SpriteName`
(`utf8 SpriteName[USER_STRING_MAX_LENGTH]`, `USER_STRING_MAX_LENGTH =
32`, both in headers missing from the sources); 31 characters plus
terminator. -/
def SPRITE_NAME_CAPACITY : Nat := 31

/-- `safe_strcpy(dst, src, size)`: bounded-length copy keeping at most
`size - 1 = cap` characters.  (The source helper is UTF-8 aware; at
this model's character granularity that is truncation to `cap`
characters.) -/
def safe_strcpy (cap : Nat) (src : Chars) : Chars :=
  src.take cap

/-- The decoded command variant (`TitleCommand` of the source: a
`TitleScript` tag plus a union of payload fields; modelled as a sum
type).  Numeric payloads are the masked unsigned values the decoder
stores: 8-bit for `Location`/`Rotate`/`Zoom`/`Speed`, 16-bit for
`Follow`'s sprite index and `Wait`'s milliseconds (field widths are
modelled from the spec, the header being absent from the sources). -/
inductive TitleCommand where
  | Load (saveIndex : Nat)
  | LoadSc (scenario : Chars)
  | Location (x y : Nat)
  | Rotate (rotations : Nat)
  | Zoom (zoom : Nat)
  | Speed (speed : Nat)
  | Follow (spriteIndex : Nat) (spriteName : Chars)
  | Wait (milliseconds : Nat)
  | Restart
  | End
  | Loop
  | EndLoop
  | Undefined
  deriving DecidableEq, Repr

/-- The sequence aggregate (`TitleSequence` of the source). -/
structure TitleSequence where
  Name : Chars := []
  Path : Chars := []
  Saves : List Chars := []
  Commands : List TitleCommand := []
  IsZip : Bool := false
  deriving DecidableEq, Repr

/-! ## Line tokenizer (`LegacyScriptGetLine`) -/

/-- The tokenizer's loop state: the three 128-byte field buffers
(`parts`), the current field index (`part`), and the `whitespace`,
`comment`, `load` and `sprite` flags.  The current write position
`cindex` is the length of the current buffer. -/
structure TokState where
  buf0 : Chars := []
  buf1 : Chars := []
  buf2 : Chars := []
  part : Nat := 0
  whitespace : Bool := true
  comment : Bool := false
  load : Bool := false
  sprite : Bool := false
  deriving DecidableEq, Repr

/-- The buffer currently being filled (`&parts[part * 128]`). -/
def TokState.cur (st : TokState) : Chars :=
  match st.part with
  | 0 => st.buf0
  | 1 => st.buf1
  | _ => st.buf2

/-- Append one character to the current buffer
(`parts[part * 128 + cindex] = c; cindex++`). -/
def TokState.push (st : TokState) (c : Char) : TokState :=
  match st.part with
  | 0 => { st with buf0 := st.buf0 ++ [c] }
  | 1 => { st with buf1 := st.buf1 ++ [c] }
  | _ => { st with buf2 := st.buf2 ++ [c] }

/-- Close the current field on a separator space: set `load` when the
first field is exactly `LOAD` (4 characters) or `LOADSC` (6
characters) case-insensitively, else set `sprite` when it is `FOLLOW`
(6 characters); then advance to the next field. -/
def TokState.closeField (st : TokState) : TokState :=
  let isLoad := st.part == 0
      && ((st.cur.length == 4 && strCaseEq st.cur "LOAD".data)
          || (st.cur.length == 6 && strCaseEq st.cur "LOADSC".data))
  let isSprite := !isLoad && st.part == 0 && st.cur.length == 6 && strCaseEq st.cur "FOLLOW".data
  { st with part := st.part + 1, load := st.load || isLoad, sprite := st.sprite || isSprite }

/-- Append one character and clear the `whitespace` flag (the
non-separator branch of the loop body). -/
def TokState.pushW (st : TokState) (c : Char) : TokState :=
  { st.push c with whitespace := false }

/-- `pushW` folded over a word. -/
def TokState.pushAll (st : TokState) (w : Chars) : TokState :=
  w.foldl TokState.pushW st

/-- Process one non-terminator character of the line, mirroring the
body of the tokenizer loop: `#` starts a comment; a space separates
fields unless a comment is active, load-mode is active, or sprite-mode
is active while filling the third field; any other non-comment
character is appended when the field holds fewer than 127 characters,
and otherwise the field is closed and the character discarded. -/
def tokStep (st : TokState) (c : Char) : TokState :=
  if c == '#' then { st with comment := true }
  else if c == ' ' && !st.comment && !st.load && (!st.sprite || st.part != 2) then
    if st.whitespace then st else st.closeField
  else if st.comment then st
  else if st.cur.length < 127 then
    st.pushW c
  else
    { st with whitespace := false, part := st.part + 1 }

/-- The tokenizer loop: while fewer than three fields are complete,
read a character; a newline, carriage return or end-of-input ends the
line (terminator consumed), otherwise the character is processed by
`tokStep`.  Returns the final state and the unconsumed remainder of
the input. -/
def getLineAux : TokState → Chars → TokState × Chars
  | st, [] => (st, [])
  | st, c :: rest =>
    if 3 ≤ st.part then (st, c :: rest)
    else if c == '\n' || c == '\r' then (st, rest)
    else getLineAux (tokStep st c) rest

/-- `LegacyScriptGetLine`: tokenize one line into `(token, part1,
part2)` and return the unconsumed remainder of the stream. -/
def LegacyScriptGetLine (input : Chars) : (Chars × Chars × Chars) × Chars :=
  let r := getLineAux {} input
  ((r.1.buf0, r.1.buf1, r.1.buf2), r.2)

/-! ## Command decoder (`LegacyScriptRead`) -/

/-- The `LOAD` lookup loop: scan the save-entry list in order and
store the index of the first case-insensitive match, truncated to
`uint8_t`; no match leaves the initial `SAVE_INDEX_INVALID`. -/
def lookupSaveAux (part1 : Chars) : List Chars → Nat → Nat
  | [], _ => SAVE_INDEX_INVALID
  | s :: rest, i => if strCaseEq part1 s then i % 256 else lookupSaveAux part1 rest (i + 1)

/-- Resolve a `LOAD` argument against the save-entry list. -/
def lookupSave (saves : List Chars) (part1 : Chars) : Nat :=
  lookupSaveAux part1 saves 0

/-- Decode one token triple into a `TitleCommand`, mirroring the token
dispatch of `LegacyScriptRead`'s loop body. -/
def decodeParts (saves : List Chars) (token part1 part2 : Chars) : TitleCommand :=
  if token.isEmpty then .Undefined
  else if strCaseEq token "LOAD".data then .Load (lookupSave saves part1)
  else if strCaseEq token "LOCATION".data then .Location (atoiMask8 part1) (atoiMask8 part2)
  else if strCaseEq token "ROTATE".data then .Rotate (atoiMask8 part1)
  else if strCaseEq token "ZOOM".data then .Zoom (atoiMask8 part1)
  else if strCaseEq token "SPEED".data then .Speed (max 1 (min 4 (atoiMask8 part1)))
  else if strCaseEq token "FOLLOW".data then
    .Follow (atoiMask16 part1) (safe_strcpy SPRITE_NAME_CAPACITY part2)
  else if strCaseEq token "WAIT".data then .Wait (atoiMask16 part1)
  else if strCaseEq token "RESTART".data then .Restart
  else if strCaseEq token "END".data then .End
  else if strCaseEq token "LOADSC".data then .LoadSc (safe_strcpy SCENARIO_CAPACITY part1)
  else .Undefined

/-- `LegacyScriptRead`: repeatedly tokenize and decode lines until the
stream is exhausted (a do-while loop: the first line is processed even
on empty input), dropping `Undefined` results. -/
def LegacyScriptRead (saves : List Chars) (script : Chars) : List TitleCommand :=
  let r := LegacyScriptGetLine script
  let cmd := decodeParts saves r.1.1 r.1.2.1 r.1.2.2
  let tail := if h : r.2 = [] then [] else LegacyScriptRead saves r.2
  if cmd = .Undefined then tail else cmd :: tail
termination_by script.length
decreasing_by
  have key : ∀ (input : Chars) (st : TokState),
      ((getLineAux st input).2).length ≤ input.length := by
    intro input
    induction input with
    | nil =>
      intro st
      simp [getLineAux]
    | cons c rest ih =>
      intro st
      simp only [getLineAux]
      by_cases h3 : 3 ≤ st.part
      · simp [h3]
      · simp only [if_neg h3]
        by_cases hnl : (c == '\n' || c == '\r') = true
        · simp [hnl]
        · simp only [hnl, Bool.false_eq_true, if_false, List.length_cons]
          exact le_trans (ih _) (Nat.le_succ _)
  rcases hscript : script with - | ⟨c, rest⟩
  case nil =>
    exfalso
    apply h
    show (LegacyScriptGetLine script).2 = []
    rw [hscript]
    rfl
  case cons =>
    show ((getLineAux {} (c :: rest)).2).length < (c :: rest).length
    simp only [getLineAux]
    have h3 : ¬ (3 ≤ (({} : TokState)).part) := by
      show ¬ (3 ≤ 0)
      omega
    simp only [if_neg h3]
    by_cases hnl : (c == '\n' || c == '\r') = true
    · simp [hnl]
    · simp only [hnl, Bool.false_eq_true, if_false, List.length_cons]
      exact Nat.lt_succ_of_le (key _ _)

/-! ## Command encoder (`LegacyScriptWrite`) -/

/-- Decimal rendering of an unsigned value (`String::Format` with
`%u`). -/
def uintToChars (n : Nat) : Chars :=
  if h : n < 10 then [Char.ofNat ('0'.toNat + n)]
  else uintToChars (n / 10) ++ [Char.ofNat ('0'.toNat + n % 10)]
termination_by n
decreasing_by
  exact Nat.div_lt_self (by omega) (by norm_num)

/-- Render one command to its script line (without the terminating
newline), mirroring the `switch` of `LegacyScriptWrite`. -/
def encodeCommand (saves : List Chars) : TitleCommand → Chars
  | .Load s =>
    if h : s < saves.length then "LOAD ".data ++ saves.get ⟨s, h⟩
    else "LOAD <No save file>".data
  | .LoadSc sc =>
    if sc.isEmpty then "LOADSC <No scenario name>".data
    else "LOADSC ".data ++ sc
  | .Undefined => []
  | .Loop => []
  | .EndLoop => []
  | .Location x y => "LOCATION ".data ++ uintToChars x ++ [' '] ++ uintToChars y
  | .Rotate r => "ROTATE ".data ++ uintToChars r
  | .Zoom z => "ZOOM ".data ++ uintToChars z
  | .Follow si nm => "FOLLOW ".data ++ uintToChars si ++ [' '] ++ nm
  | .Speed s => "SPEED ".data ++ uintToChars s
  | .Wait ms => "WAIT ".data ++ uintToChars ms
  | .Restart => "RESTART".data
  | .End => "END".data

/-- `LegacyScriptWrite`: the `# SCRIPT FOR <name>` header line followed
by one line per command, each terminated by a newline. -/
def LegacyScriptWrite (seq : TitleSequence) : Chars :=
  "# SCRIPT FOR ".data ++ seq.Name ++ ['\n']
    ++ (seq.Commands.map (fun c => encodeCommand seq.Saves c ++ ['\n'])).flatten

/-! ## Sequence mutation operations -/

/-- I/O outcome oracle for `TitleSequenceAddPark`: whether
`File::ReadAllBytes(path)` succeeds (zip branch), whether
`Zip::TryOpen(seq.Path, WRITE)` succeeds (zip branch), and whether
`File::Copy(path, dstPath)` succeeds (directory branch). -/
structure AddParkOracle where
  readOk : Bool := true
  zipOpenOk : Bool := true
  copyOk : Bool := true
  deriving DecidableEq, Repr

/-- `TitleSequenceAddPark`: first, if `path` (not `name`) is absent
from the save-entry list, append `name`; then perform the backend copy.
In the zip branch a `File::ReadAllBytes` failure is caught, logged and
falls through to `return true`, while a failed `Zip::TryOpen` returns
`false`; in the directory branch a failed `File::Copy` returns
`false`.  Returns the success flag and the resulting sequence. -/
def TitleSequenceAddPark (seq : TitleSequence) (path name : Chars) (eff : AddParkOracle) :
    Bool × TitleSequence :=
  let seq' := if path ∈ seq.Saves then seq else { seq with Saves := seq.Saves ++ [name] }
  if seq.IsZip then
    if !eff.readOk then (true, seq')
    else if !eff.zipOpenOk then (false, seq')
    else (true, seq')
  else
    if eff.copyOk then (true, seq') else (false, seq')

/-- `TitleSequenceRenamePark`: asserts `index < seq.Saves.size()`
(modelled as `none` on violation of the `Guard::Assert` contract);
backend rename first (`ioOk`: `Zip::TryOpen` in the zip branch,
`File::Move` in the directory branch), and only on success update the
save-entry slot in place. -/
def TitleSequenceRenamePark (seq : TitleSequence) (index : Nat) (name : Chars) (ioOk : Bool) :
    Option (Bool × TitleSequence) :=
  if index < seq.Saves.length then
    if ioOk then some (true, { seq with Saves := seq.Saves.set index name })
    else some (false, seq)
  else none

/-- Reindexing of one command after removing save entry `index`: a
`Load` whose `SaveIndex` equals `index` becomes `SAVE_INDEX_INVALID`, a
`Load` whose `SaveIndex` exceeds `index` is decremented, everything
else is untouched. -/
def reindexAfterRemove (index : Nat) : TitleCommand → TitleCommand
  | .Load s =>
    if s = index then .Load SAVE_INDEX_INVALID
    else if s > index then .Load (s - 1)
    else .Load s
  | c => c

/-- `TitleSequenceRemovePark`: asserts `index < seq.Saves.size()`
(modelled as `none` on violation); backend delete first (`ioOk`:
`Zip::TryOpen` in the zip branch, `File::Delete` in the directory
branch), and only on success erase the save-entry slot and run the
reindexing pass over every command. -/
def TitleSequenceRemovePark (seq : TitleSequence) (index : Nat) (ioOk : Bool) :
    Option (Bool × TitleSequence) :=
  if index < seq.Saves.length then
    if ioOk then
      some (true,
        { seq with
          Saves := seq.Saves.eraseIdx index
          Commands := seq.Commands.map (reindexAfterRemove index) })
    else some (false, seq)
  else none

/-- A transient readable handle for one save entry (`TitleSequence
ParkHandle`); the byte stream itself is outside this model, the handle
records the entry it was opened for. -/
structure ParkHandle where
  HintPath : Chars
  deriving DecidableEq, Repr

/-- `TitleSequenceGetParkHandle`: guarded by `index <= seq.Saves.size()`
(note: `<=`, not `<`), then reads `seq.Saves[index]` — an out-of-range
vector access when `index == seq.Saves.size()`, modelled as the outer
`none`.  Inside the range, a handle is produced when the backend open
(`openOk`: `Zip::TryOpen` or the `FileStream` constructor) succeeds,
and no handle otherwise; an index above the guard also produces no
handle.  The outer `some` means the access was in range. -/
def TitleSequenceGetParkHandle (seq : TitleSequence) (index : Nat) (openOk : Bool) :
    Option (Option ParkHandle) :=
  if index ≤ seq.Saves.length then
    match seq.Saves[index]? with
    | none => none
    | some filename => if openOk then some (some ⟨filename⟩) else some none
  else some none

/-! ## Tokenizer infrastructure lemmas -/

/-- A character the tokenizer can store in a field: not a line
terminator and not the comment marker. -/
def cleanChar (c : Char) : Bool :=
  !(c == '\n' || c == '\r' || c == '#')

/-- A string of storable characters. -/
def cleanStr (s : Chars) : Bool :=
  s.all cleanChar

/-- Invariant satisfied by every command the decoder produces (used for
the round-trip argument): numeric fields are inside their masked
ranges, copied strings are storable and within their capacities, and a
valid `Load` index is the first case-insensitive match of its own save
entry. -/
def GoodCmd (saves : List Chars) : TitleCommand → Prop
  | .Load s => s = SAVE_INDEX_INVALID
      ∨ (s < saves.length ∧ lookupSave saves (saves.getD s []) = s)
  | .LoadSc sc => sc ≠ [] ∧ sc.length ≤ SCENARIO_CAPACITY ∧ cleanStr sc = true
  | .Location x y => x < 256 ∧ y < 256
  | .Rotate r => r < 256
  | .Zoom z => z < 256
  | .Speed s => 1 ≤ s ∧ s ≤ 4
  | .Follow si nm => si < 65536 ∧ nm.length ≤ SPRITE_NAME_CAPACITY ∧ cleanStr nm = true
  | .Wait ms => ms < 65536
  | .Restart => True
  | .End => True
  | .Loop => False
  | .EndLoop => False
  | .Undefined => False

/-- Well-formedness of a save-entry list for the round-trip property:
at most 255 entries (so every position fits an 8-bit index distinct
from the sentinel), each name storable in one 127-character field, and
no name matching the encoder's `<No save file>` placeholder. -/
def WellFormedSaves (saves : List Chars) : Prop :=
  saves.length ≤ 255
  ∧ ∀ s ∈ saves, cleanStr s = true ∧ s.length ≤ 127
      ∧ strCaseEq s "<No save file>".data = false

/-- Spec-side relation (worded exactly as claim C1) between a command
before and after `Remove(i)`: a `Load` of `i` becomes the sentinel, a
`Load` of `j > i` is decremented, and anything else is unchanged. -/
def loadReindexSpec (i : Nat) (old new : TitleCommand) : Prop :=
  match old with
  | .Load j =>
    (j = i → new = .Load SAVE_INDEX_INVALID)
    ∧ (j > i → new = .Load (j - 1))
    ∧ (j < i → new = old)
  | _ => new = old

/-- Spec-side conclusion of claim C1 for `TitleSequenceRemovePark` with
successful backend I/O: the call succeeds, only the save list and the
`Load` indices change, and the reindexing pass covers every command. -/
def RemoveParkC1Spec (seq : TitleSequence) (i : Nat) : Prop :=
  match TitleSequenceRemovePark seq i true with
  | none => False
  | some (ok, seq2) =>
    ok = true ∧ seq2.Name = seq.Name ∧ seq2.Path = seq.Path ∧ seq2.IsZip = seq.IsZip
    ∧ seq2.Saves = seq.Saves.eraseIdx i
    ∧ seq2.Commands.length = seq.Commands.length
    ∧ ∀ k, k < seq.Commands.length →
        loadReindexSpec i (seq.Commands.getD k .Undefined) (seq2.Commands.getD k .Undefined)

/-- Spec-side predicate (the §3 invariant of claim C2): a `Load`
command's index is the sentinel or a valid position. -/
def loadIndexOK (saves : List Chars) : TitleCommand → Bool
  | .Load j => j == SAVE_INDEX_INVALID || decide (j < saves.length)
  | _ => true

/-- Spec-side invariant of claim C2 over a whole sequence. -/
def LoadIndexInvariant (seq : TitleSequence) : Bool :=
  seq.Commands.all (loadIndexOK seq.Saves)

/-- Behaviour of the three mutation operations when the backend I/O
fails (the amended claim C3): remove and rename report failure with the
sequence unchanged; add updates the save list before the I/O, reports
failure on a failed directory copy, and reports success when the
archive-branch source read throws. -/
def MutationFailureSpec (seq : TitleSequence) (index : Nat) (name path : Chars)
    (eff : AddParkOracle) : Prop :=
  TitleSequenceRemovePark seq index false = some (false, seq)
  ∧ TitleSequenceRenamePark seq index name false = some (false, seq)
  ∧ (TitleSequenceAddPark seq path name eff).2.Saves
      = (if path ∈ seq.Saves then seq.Saves else seq.Saves ++ [name])
  ∧ (seq.IsZip = false → eff.copyOk = false → (TitleSequenceAddPark seq path name eff).1 = false)
  ∧ (seq.IsZip = true → eff.readOk = false → (TitleSequenceAddPark seq path name eff).1 = true)

/-- Spec-side bounds of claim C6: every decoded numeric field fits the
mask the decoder applies, and `Speed` is clamped to `[1, 4]`. -/
def NumericBoundsOK : TitleCommand → Prop
  | .Location x y => x < 256 ∧ y < 256
  | .Rotate r => r < 256
  | .Zoom z => z < 256
  | .Speed s => 1 ≤ s ∧ s ≤ 4
  | .Follow si _ => si < 65536
  | .Wait ms => ms < 65536
  | _ => True

theorem getLineAux_done (st : TokState) (input : Chars) (h : 3 ≤ st.part) :
    getLineAux st input = (st, input) := by
  cases input with
  | nil => rfl
  | cons c rest =>
    simp only [getLineAux, if_pos h]

theorem getLineAux_nil (st : TokState) : getLineAux st [] = (st, []) := rfl

theorem getLineAux_newline (st : TokState) (c : Char) (rest : Chars)
    (h3 : ¬ 3 ≤ st.part) (hc : (c == '\n' || c == '\r') = true) :
    getLineAux st (c :: rest) = (st, rest) := by
  simp only [getLineAux, if_neg h3, hc, if_true]

theorem getLineAux_step (st : TokState) (c : Char) (rest : Chars)
    (h3 : ¬ 3 ≤ st.part) (hc : (c == '\n' || c == '\r') = false) :
    getLineAux st (c :: rest) = getLineAux (tokStep st c) rest := by
  simp only [getLineAux, if_neg h3, hc, Bool.false_eq_true, if_false]

theorem getLineAux_snd_length_le (st : TokState) (input : Chars) :
    (getLineAux st input).2.length ≤ input.length := by
  induction input generalizing st with
  | nil => simp [getLineAux_nil]
  | cons c rest ih =>
    by_cases h3 : 3 ≤ st.part
    · rw [getLineAux_done st _ h3]
    · by_cases hnl : (c == '\n' || c == '\r') = true
      · rw [getLineAux_newline st c rest h3 hnl]
        exact Nat.le_succ _
      · rw [getLineAux_step st c rest h3 (by simpa using hnl)]
        exact le_trans (ih _) (Nat.le_succ _)

theorem LegacyScriptGetLine_snd_lt (input : Chars) (h : input ≠ []) :
    (LegacyScriptGetLine input).2.length < input.length := by
  match input with
  | [] => exact absurd rfl h
  | c :: rest =>
    show ((getLineAux {} (c :: rest)).2).length < _
    have h3 : ¬ (3 ≤ (({} : TokState)).part) := by
      show ¬ (3 ≤ 0)
      omega
    by_cases hnl : (c == '\n' || c == '\r') = true
    · rw [getLineAux_newline _ c rest h3 hnl]
      exact Nat.lt_succ_self _
    · rw [getLineAux_step _ c rest h3 (by simpa using hnl)]
      exact Nat.lt_succ_of_le (getLineAux_snd_length_le _ _)

theorem push_part (st : TokState) (c : Char) : (st.push c).part = st.part := by
  rcases st with ⟨b0, b1, b2, p, w, cm, l, sp⟩
  unfold TokState.push
  rcases p with - | - | p <;> rfl

theorem push_comment (st : TokState) (c : Char) : (st.push c).comment = st.comment := by
  rcases st with ⟨b0, b1, b2, p, w, cm, l, sp⟩
  unfold TokState.push
  rcases p with - | - | p <;> rfl

theorem push_load (st : TokState) (c : Char) : (st.push c).load = st.load := by
  rcases st with ⟨b0, b1, b2, p, w, cm, l, sp⟩
  unfold TokState.push
  rcases p with - | - | p <;> rfl

theorem push_sprite (st : TokState) (c : Char) : (st.push c).sprite = st.sprite := by
  rcases st with ⟨b0, b1, b2, p, w, cm, l, sp⟩
  unfold TokState.push
  rcases p with - | - | p <;> rfl

theorem push_cur (st : TokState) (c : Char) : (st.push c).cur = st.cur ++ [c] := by
  rcases st with ⟨b0, b1, b2, p, w, cm, l, sp⟩
  unfold TokState.push TokState.cur
  rcases p with - | - | p <;> rfl

theorem push_at_zero (st : TokState) (c : Char) (h : st.part = 0) :
    st.push c = { st with buf0 := st.buf0 ++ [c] } := by
  rcases st with ⟨b0, b1, b2, p, w, cm, l, sp⟩
  simp only at h
  subst h
  rfl

theorem push_at_one (st : TokState) (c : Char) (h : st.part = 1) :
    st.push c = { st with buf1 := st.buf1 ++ [c] } := by
  rcases st with ⟨b0, b1, b2, p, w, cm, l, sp⟩
  simp only at h
  subst h
  rfl

theorem push_at_two (st : TokState) (c : Char) (h : st.part = 2) :
    st.push c = { st with buf2 := st.buf2 ++ [c] } := by
  rcases st with ⟨b0, b1, b2, p, w, cm, l, sp⟩
  simp only at h
  subst h
  rfl

theorem pushAll_nil (st : TokState) : st.pushAll [] = st := rfl

theorem pushAll_cons (st : TokState) (c : Char) (w : Chars) :
    st.pushAll (c :: w) = (st.pushW c).pushAll w := rfl

theorem pushW_part (st : TokState) (c : Char) : (st.pushW c).part = st.part :=
  push_part st c

theorem pushW_comment (st : TokState) (c : Char) : (st.pushW c).comment = st.comment :=
  push_comment st c

theorem pushW_load (st : TokState) (c : Char) : (st.pushW c).load = st.load :=
  push_load st c

theorem pushW_sprite (st : TokState) (c : Char) : (st.pushW c).sprite = st.sprite :=
  push_sprite st c

theorem pushW_cur (st : TokState) (c : Char) : (st.pushW c).cur = st.cur ++ [c] := by
  show (st.push c).cur = st.cur ++ [c]
  exact push_cur st c

theorem pushW_whitespace (st : TokState) (c : Char) : (st.pushW c).whitespace = false := rfl

theorem pushAll_at_zero (st : TokState) (w : Chars) (h : st.part = 0) :
    st.pushAll w
      = { st with buf0 := st.buf0 ++ w, whitespace := st.whitespace && w.isEmpty } := by
  induction w generalizing st with
  | nil =>
    rcases st with ⟨b0, b1, b2, p, ws, cm, l, sp⟩
    simp [pushAll_nil]
  | cons c w ih =>
    rw [pushAll_cons, ih _ (by rw [pushW_part]; exact h)]
    have hpw : st.pushW c = { st with buf0 := st.buf0 ++ [c], whitespace := false } := by
      show { st.push c with whitespace := false } = _
      rw [push_at_zero st c h]
    rw [hpw]
    simp

theorem pushAll_at_one (st : TokState) (w : Chars) (h : st.part = 1) :
    st.pushAll w
      = { st with buf1 := st.buf1 ++ w, whitespace := st.whitespace && w.isEmpty } := by
  induction w generalizing st with
  | nil =>
    rcases st with ⟨b0, b1, b2, p, ws, cm, l, sp⟩
    simp [pushAll_nil]
  | cons c w ih =>
    rw [pushAll_cons, ih _ (by rw [pushW_part]; exact h)]
    have hpw : st.pushW c = { st with buf1 := st.buf1 ++ [c], whitespace := false } := by
      show { st.push c with whitespace := false } = _
      rw [push_at_one st c h]
    rw [hpw]
    simp

theorem pushAll_at_two (st : TokState) (w : Chars) (h : st.part = 2) :
    st.pushAll w
      = { st with buf2 := st.buf2 ++ w, whitespace := st.whitespace && w.isEmpty } := by
  induction w generalizing st with
  | nil =>
    rcases st with ⟨b0, b1, b2, p, ws, cm, l, sp⟩
    simp [pushAll_nil]
  | cons c w ih =>
    rw [pushAll_cons, ih _ (by rw [pushW_part]; exact h)]
    have hpw : st.pushW c = { st with buf2 := st.buf2 ++ [c], whitespace := false } := by
      show { st.push c with whitespace := false } = _
      rw [push_at_two st c h]
    rw [hpw]
    simp

theorem cleanChar_iff (c : Char) : cleanChar c = true ↔ c ≠ '\n' ∧ c ≠ '\r' ∧ c ≠ '#' := by
  simp [cleanChar, and_assoc]

theorem tokStep_push (st : TokState) (c : Char)
    (hhash : c ≠ '#') (hcomment : st.comment = false)
    (hspace : ¬ (c == ' ' && !st.comment && !st.load && (!st.sprite || st.part != 2)) = true)
    (hlen : st.cur.length < 127) :
    tokStep st c = st.pushW c := by
  unfold tokStep
  rw [if_neg (by simpa using hhash), if_neg hspace, if_neg (by simp [hcomment]),
    if_pos hlen]

theorem tokStep_sep (st : TokState)
    (hcomment : st.comment = false) (hload : st.load = false)
    (hsp : st.sprite = false ∨ st.part ≠ 2) (hws : st.whitespace = false) :
    tokStep st ' ' = st.closeField := by
  unfold tokStep
  rw [if_neg (by decide)]
  rw [if_pos ?_, if_neg (by simp [hws])]
  simp only [hcomment, hload, Bool.not_false, Bool.and_true, Bool.true_and]
  rcases hsp with hsp | hsp
  · simp [hsp]
  · have hbne : (st.part != 2) = true := by simpa using hsp
    simp [hbne]

theorem tokStep_comment (st : TokState) (c : Char) (h : st.comment = true) :
    tokStep st c = st := by
  unfold tokStep
  by_cases hc : (c == '#') = true
  · rw [if_pos hc]
    rcases st with ⟨b0, b1, b2, p, ws, cm, l, sp⟩
    simp only at h
    subst h
    rfl
  · rw [if_neg hc, if_neg (by simp [h]), if_pos h]

theorem getLineAux_scan (w : Chars) (st : TokState) (tail : Chars)
    (hpart : st.part < 3) (hcomment : st.comment = false)
    (hw : ∀ c ∈ w, cleanChar c = true
      ∧ (c = ' ' → st.load = true ∨ (st.sprite = true ∧ st.part = 2)))
    (hlen : st.cur.length + w.length ≤ 127) :
    getLineAux st (w ++ tail) = getLineAux (st.pushAll w) tail := by
  induction w generalizing st with
  | nil => rw [pushAll_nil, List.nil_append]
  | cons c w ih =>
    obtain ⟨hcl, hcsp⟩ := hw c (by simp)
    obtain ⟨h1, h2, h3⟩ := (cleanChar_iff c).mp hcl
    have hcn : (c == '\n' || c == '\r') = false := by
      simp [h1, h2]
    have hlen' : st.cur.length + w.length + 1 ≤ 127 := by
      simp only [List.length_cons] at hlen
      omega
    rw [List.cons_append, getLineAux_step st c _ (by omega) hcn]
    have hstep : tokStep st c = st.pushW c := by
      apply tokStep_push st c h3 hcomment ?_ (by omega)
      intro hsp
      by_cases hc : c = ' '
      · rcases hcsp hc with hl | ⟨hs, hp⟩
        · simp [hl] at hsp
        · simp [hs, hp] at hsp
      · simp [hc] at hsp
    rw [hstep, pushAll_cons]
    exact ih (st.pushW c)
      (by rw [pushW_part]; exact hpart)
      (by rw [pushW_comment]; exact hcomment)
      (fun d hd => by
        obtain ⟨hd1, hd2⟩ := hw d (List.mem_cons_of_mem _ hd)
        refine ⟨hd1, fun hds => ?_⟩
        rw [pushW_load, pushW_sprite, pushW_part]
        exact hd2 hds)
      (by
        rw [pushW_cur]
        simp only [List.length_append, List.length_singleton]
        omega)

theorem getLineAux_sep (st : TokState) (tail : Chars)
    (hpart : st.part < 3) (hcomment : st.comment = false)
    (hload : st.load = false) (hsp : st.sprite = false ∨ st.part ≠ 2)
    (hws : st.whitespace = false) :
    getLineAux st (' ' :: tail) = getLineAux st.closeField tail := by
  rw [getLineAux_step st ' ' tail (by omega) (by decide),
    tokStep_sep st hcomment hload hsp hws]

theorem getLineAux_comment_scan (w : Chars) (st : TokState) (tail : Chars)
    (hpart : st.part < 3) (hcomment : st.comment = true)
    (hw : ∀ c ∈ w, (c == '\n' || c == '\r') = false) :
    getLineAux st (w ++ tail) = getLineAux st tail := by
  induction w with
  | nil => rw [List.nil_append]
  | cons c w ih =>
    rw [List.cons_append, getLineAux_step st c _ (by omega) (hw c (by simp)),
      tokStep_comment st c hcomment]
    exact ih (fun d hd => hw d (List.mem_cons_of_mem _ hd))

theorem getLineAux_scan_init (w : Chars) (tail : Chars)
    (hw : cleanStr w = true) (hwsp : ∀ c ∈ w, c ≠ ' ')
    (hne : w ≠ []) (hlen : w.length ≤ 127) :
    getLineAux ({} : TokState) (w ++ tail)
      = getLineAux ⟨w, [], [], 0, false, false, false, false⟩ tail := by
  rw [getLineAux_scan w {} tail (by show (0:Nat) < 3; omega) rfl
    (fun c hc => ⟨by
        have := List.all_eq_true.mp hw c hc
        simpa using this,
      fun hcs => absurd hcs (hwsp c hc)⟩)
    (by
      show List.length ([] : Chars) + w.length ≤ 127
      simpa using hlen)]
  rw [pushAll_at_zero {} w rfl]
  have : w.isEmpty = false := by simpa using hne
  simp [this]

theorem closeField_load (w : Chars) (b1 b2 : Chars)
    (hload : ((w.length == 4 && strCaseEq w "LOAD".data)
      || (w.length == 6 && strCaseEq w "LOADSC".data)) = true) :
    (⟨w, b1, b2, 0, false, false, false, false⟩ : TokState).closeField
      = ⟨w, b1, b2, 1, false, false, true, false⟩ := by
  unfold TokState.closeField
  have hcur : (⟨w, b1, b2, 0, false, false, false, false⟩ : TokState).cur = w := rfl
  simp [hcur, hload]

theorem closeField_follow (w : Chars) (b1 b2 : Chars)
    (hnl : ((w.length == 4 && strCaseEq w "LOAD".data)
      || (w.length == 6 && strCaseEq w "LOADSC".data)) = false)
    (hf : (w.length == 6 && strCaseEq w "FOLLOW".data) = true) :
    (⟨w, b1, b2, 0, false, false, false, false⟩ : TokState).closeField
      = ⟨w, b1, b2, 1, false, false, false, true⟩ := by
  unfold TokState.closeField
  have hcur : (⟨w, b1, b2, 0, false, false, false, false⟩ : TokState).cur = w := rfl
  simp [hcur, hnl, hf]

theorem closeField_plain (w : Chars) (b1 b2 : Chars)
    (hnl : ((w.length == 4 && strCaseEq w "LOAD".data)
      || (w.length == 6 && strCaseEq w "LOADSC".data)) = false)
    (hnf : (w.length == 6 && strCaseEq w "FOLLOW".data) = false) :
    (⟨w, b1, b2, 0, false, false, false, false⟩ : TokState).closeField
      = ⟨w, b1, b2, 1, false, false, false, false⟩ := by
  unfold TokState.closeField
  have hcur : (⟨w, b1, b2, 0, false, false, false, false⟩ : TokState).cur = w := rfl
  simp [hcur, hnl, hnf]

theorem closeField_at_ge_one (st : TokState) (h : st.part ≠ 0) :
    st.closeField = { st with part := st.part + 1 } := by
  unfold TokState.closeField
  have hp : (st.part == 0) = false := by simpa using h
  simp [hp]

/-- Tokenizing a one-field line `w\n`. -/
theorem getLine_token_line (w more : Chars)
    (hw : cleanStr w = true) (hwsp : ∀ c ∈ w, c ≠ ' ')
    (hne : w ≠ []) (hlen : w.length ≤ 127) :
    LegacyScriptGetLine (w ++ '\n' :: more) = ((w, [], []), more) := by
  unfold LegacyScriptGetLine
  rw [getLineAux_scan_init w _ hw hwsp hne hlen,
    getLineAux_newline _ '\n' more (by show ¬ (3 ≤ 0); omega) (by decide)]

/-- Tokenizing a `LOAD`/`LOADSC` line `w arg\n`: the argument is taken
verbatim, embedded spaces included. -/
theorem getLine_load_line (w arg more : Chars)
    (hload : ((w.length == 4 && strCaseEq w "LOAD".data)
      || (w.length == 6 && strCaseEq w "LOADSC".data)) = true)
    (hw : cleanStr w = true) (hwsp : ∀ c ∈ w, c ≠ ' ')
    (hne : w ≠ []) (hwlen : w.length ≤ 127)
    (harg : cleanStr arg = true) (harglen : arg.length ≤ 127) :
    LegacyScriptGetLine (w ++ ' ' :: (arg ++ '\n' :: more)) = ((w, arg, []), more) := by
  unfold LegacyScriptGetLine
  rw [getLineAux_scan_init w _ hw hwsp hne hwlen,
    getLineAux_sep _ _ (by show (0:Nat) < 3; omega) rfl rfl (Or.inl rfl) rfl,
    closeField_load w [] [] hload,
    getLineAux_scan arg _ _ (by show (1:Nat) < 3; omega) rfl
      (fun c hc => ⟨by simpa using List.all_eq_true.mp harg c hc, fun _ => Or.inl rfl⟩)
      (by
        show List.length ([] : Chars) + arg.length ≤ 127
        simpa using harglen),
    pushAll_at_one _ arg rfl,
    getLineAux_newline _ '\n' more (by show ¬ (3 ≤ 1); omega) (by decide)]
  simp

/-- Tokenizing a plain two-field line `w d\n` (no special mode). -/
theorem getLine_two_line (w d more : Chars)
    (hnl : ((w.length == 4 && strCaseEq w "LOAD".data)
      || (w.length == 6 && strCaseEq w "LOADSC".data)) = false)
    (hnf : (w.length == 6 && strCaseEq w "FOLLOW".data) = false)
    (hw : cleanStr w = true) (hwsp : ∀ c ∈ w, c ≠ ' ')
    (hne : w ≠ []) (hwlen : w.length ≤ 127)
    (hd : cleanStr d = true) (hdsp : ∀ c ∈ d, c ≠ ' ') (hdlen : d.length ≤ 127) :
    LegacyScriptGetLine (w ++ ' ' :: (d ++ '\n' :: more)) = ((w, d, []), more) := by
  unfold LegacyScriptGetLine
  rw [getLineAux_scan_init w _ hw hwsp hne hwlen,
    getLineAux_sep _ _ (by show (0:Nat) < 3; omega) rfl rfl (Or.inl rfl) rfl,
    closeField_plain w [] [] hnl hnf,
    getLineAux_scan d _ _ (by show (1:Nat) < 3; omega) rfl
      (fun c hc => ⟨by simpa using List.all_eq_true.mp hd c hc,
        fun hcs => absurd hcs (hdsp c hc)⟩)
      (by
        show List.length ([] : Chars) + d.length ≤ 127
        simpa using hdlen),
    pushAll_at_one _ d rfl,
    getLineAux_newline _ '\n' more (by show ¬ (3 ≤ 1); omega) (by decide)]
  simp

/-- Tokenizing a plain three-field line `w d1 d2\n` (no special mode). -/
theorem getLine_three_line (w d1 d2 more : Chars)
    (hnl : ((w.length == 4 && strCaseEq w "LOAD".data)
      || (w.length == 6 && strCaseEq w "LOADSC".data)) = false)
    (hnf : (w.length == 6 && strCaseEq w "FOLLOW".data) = false)
    (hw : cleanStr w = true) (hwsp : ∀ c ∈ w, c ≠ ' ')
    (hne : w ≠ []) (hwlen : w.length ≤ 127)
    (hd1 : cleanStr d1 = true) (hd1sp : ∀ c ∈ d1, c ≠ ' ')
    (hd1ne : d1 ≠ []) (hd1len : d1.length ≤ 127)
    (hd2 : cleanStr d2 = true) (hd2sp : ∀ c ∈ d2, c ≠ ' ') (hd2len : d2.length ≤ 127) :
    LegacyScriptGetLine (w ++ ' ' :: (d1 ++ ' ' :: (d2 ++ '\n' :: more)))
      = ((w, d1, d2), more) := by
  unfold LegacyScriptGetLine
  rw [getLineAux_scan_init w _ hw hwsp hne hwlen,
    getLineAux_sep _ _ (by show (0:Nat) < 3; omega) rfl rfl (Or.inl rfl) rfl,
    closeField_plain w [] [] hnl hnf,
    getLineAux_scan d1 _ _ (by show (1:Nat) < 3; omega) rfl
      (fun c hc => ⟨by simpa using List.all_eq_true.mp hd1 c hc,
        fun hcs => absurd hcs (hd1sp c hc)⟩)
      (by
        show List.length ([] : Chars) + d1.length ≤ 127
        simpa using hd1len),
    pushAll_at_one _ d1 rfl]
  have hd1e : d1.isEmpty = false := by simpa using hd1ne
  rw [show ((⟨w, [] ++ d1, [], 1, false && d1.isEmpty, false, false, false⟩ : TokState))
      = ⟨w, d1, [], 1, false, false, false, false⟩ by simp,
    getLineAux_sep _ _ (by show (1:Nat) < 3; omega) rfl rfl (Or.inl rfl) rfl,
    closeField_at_ge_one _ (by show (1:Nat) ≠ 0; omega)]
  rw [show ({ (⟨w, d1, [], 1, false, false, false, false⟩ : TokState) with part := 1 + 1 } : TokState)
      = ⟨w, d1, [], 2, false, false, false, false⟩ by rfl,
    getLineAux_scan d2 _ _ (by show (2:Nat) < 3; omega) rfl
      (fun c hc => ⟨by simpa using List.all_eq_true.mp hd2 c hc,
        fun hcs => absurd hcs (hd2sp c hc)⟩)
      (by
        show List.length ([] : Chars) + d2.length ≤ 127
        simpa using hd2len),
    pushAll_at_two _ d2 rfl,
    getLineAux_newline _ '\n' more (by show ¬ (3 ≤ 2); omega) (by decide)]
  simp

/-- Tokenizing a `FOLLOW` line `w d1 nm\n`: the numeric second field is
space-delimited, the third field takes the rest of the line verbatim. -/
theorem getLine_follow_line (w d1 nm more : Chars)
    (hnl : ((w.length == 4 && strCaseEq w "LOAD".data)
      || (w.length == 6 && strCaseEq w "LOADSC".data)) = false)
    (hf : (w.length == 6 && strCaseEq w "FOLLOW".data) = true)
    (hw : cleanStr w = true) (hwsp : ∀ c ∈ w, c ≠ ' ')
    (hne : w ≠ []) (hwlen : w.length ≤ 127)
    (hd1 : cleanStr d1 = true) (hd1sp : ∀ c ∈ d1, c ≠ ' ')
    (hd1ne : d1 ≠ []) (hd1len : d1.length ≤ 127)
    (hnm : cleanStr nm = true) (hnmlen : nm.length ≤ 127) :
    LegacyScriptGetLine (w ++ ' ' :: (d1 ++ ' ' :: (nm ++ '\n' :: more)))
      = ((w, d1, nm), more) := by
  unfold LegacyScriptGetLine
  rw [getLineAux_scan_init w _ hw hwsp hne hwlen,
    getLineAux_sep _ _ (by show (0:Nat) < 3; omega) rfl rfl (Or.inl rfl) rfl,
    closeField_follow w [] [] hnl hf,
    getLineAux_scan d1 _ _ (by show (1:Nat) < 3; omega) rfl
      (fun c hc => ⟨by simpa using List.all_eq_true.mp hd1 c hc,
        fun hcs => absurd hcs (hd1sp c hc)⟩)
      (by
        show List.length ([] : Chars) + d1.length ≤ 127
        simpa using hd1len),
    pushAll_at_one _ d1 rfl]
  have hd1e : d1.isEmpty = false := by simpa using hd1ne
  rw [show ((⟨w, [] ++ d1, [], 1, false && d1.isEmpty, false, false, true⟩ : TokState))
      = ⟨w, d1, [], 1, false, false, false, true⟩ by simp,
    getLineAux_sep _ _ (by show (1:Nat) < 3; omega) rfl rfl
      (Or.inr (by show (1:Nat) ≠ 2; omega)) rfl,
    closeField_at_ge_one _ (by show (1:Nat) ≠ 0; omega)]
  rw [show ({ (⟨w, d1, [], 1, false, false, false, true⟩ : TokState) with part := 1 + 1 } : TokState)
      = ⟨w, d1, [], 2, false, false, false, true⟩ by rfl,
    getLineAux_scan nm _ _ (by show (2:Nat) < 3; omega) rfl
      (fun c hc => ⟨by simpa using List.all_eq_true.mp hnm c hc,
        fun _ => Or.inr ⟨rfl, rfl⟩⟩)
      (by
        show List.length ([] : Chars) + nm.length ≤ 127
        simpa using hnmlen),
    pushAll_at_two _ nm rfl,
    getLineAux_newline _ '\n' more (by show ¬ (3 ≤ 2); omega) (by decide)]
  simp

/-- Tokenizing a comment line `#…\n`: all three fields stay empty. -/
theorem getLine_comment_line (rest more : Chars)
    (hrest : ∀ c ∈ rest, (c == '\n' || c == '\r') = false) :
    LegacyScriptGetLine ('#' :: (rest ++ '\n' :: more)) = (([], [], []), more) := by
  unfold LegacyScriptGetLine
  rw [getLineAux_step _ '#' _ (by show ¬ (3 ≤ 0); omega) (by decide)]
  have hstep : tokStep ({} : TokState) '#'
      = (⟨[], [], [], 0, true, true, false, false⟩ : TokState) := by
    unfold tokStep
    rw [if_pos (by decide)]
  rw [hstep,
    getLineAux_comment_scan rest _ _ (by show (0:Nat) < 3; omega) rfl hrest,
    getLineAux_newline _ '\n' more (by show ¬ (3 ≤ 0); omega) (by decide)]

/-! ## Decimal rendering and `atoi` round-trip -/

theorem uintToChars_ne_nil (n : Nat) : uintToChars n ≠ [] := by
  rw [uintToChars.eq_def]
  split <;> simp

theorem mem_uintToChars (n : Nat) (c : Char) (h : c ∈ uintToChars n) :
    ∃ d, d < 10 ∧ c = Char.ofNat ('0'.toNat + d) := by
  induction n using Nat.strong_induction_on with
  | _ n ih =>
    rw [uintToChars.eq_def] at h
    split at h
    · next hn =>
      simp only [List.mem_singleton] at h
      exact ⟨n, hn, h⟩
    · next hn =>
      rw [List.mem_append] at h
      rcases h with h | h
      · exact ih (n / 10) (Nat.div_lt_self (by omega) (by norm_num)) h
      · simp only [List.mem_singleton] at h
        exact ⟨n % 10, Nat.mod_lt _ (by norm_num), h⟩

theorem digitChar_props (d : Nat) (hd : d < 10) :
    isDigitC (Char.ofNat ('0'.toNat + d)) = true
  ∧ cleanChar (Char.ofNat ('0'.toNat + d)) = true
  ∧ Char.ofNat ('0'.toNat + d) ≠ ' '
  ∧ Char.ofNat ('0'.toNat + d) ≠ '-'
  ∧ Char.ofNat ('0'.toNat + d) ≠ '+'
  ∧ isSpaceC (Char.ofNat ('0'.toNat + d)) = false
  ∧ (Char.ofNat ('0'.toNat + d)).toNat = '0'.toNat + d := by
  interval_cases d <;> exact ⟨by decide, by decide, by decide, by decide, by decide, by decide,
    by decide⟩

theorem uintToChars_digits (n : Nat) : ∀ c ∈ uintToChars n, isDigitC c = true := by
  intro c hc
  obtain ⟨d, hd, rfl⟩ := mem_uintToChars n c hc
  exact (digitChar_props d hd).1

theorem uintToChars_clean (n : Nat) : cleanStr (uintToChars n) = true := by
  rw [cleanStr, List.all_eq_true]
  intro c hc
  obtain ⟨d, hd, rfl⟩ := mem_uintToChars n c hc
  exact (digitChar_props d hd).2.1

theorem uintToChars_no_space (n : Nat) : ∀ c ∈ uintToChars n, c ≠ ' ' := by
  intro c hc
  obtain ⟨d, hd, rfl⟩ := mem_uintToChars n c hc
  exact (digitChar_props d hd).2.2.1

theorem atoiDigits_append (d1 d2 : Chars) (acc : Nat) (h : ∀ c ∈ d1, isDigitC c = true) :
    atoiDigits acc (d1 ++ d2) = atoiDigits (atoiDigits acc d1) d2 := by
  induction d1 generalizing acc with
  | nil => rfl
  | cons c d1 ih =>
    have hc := h c (by simp)
    simp only [List.cons_append, atoiDigits, hc, if_true]
    exact ih _ (fun x hx => h x (List.mem_cons_of_mem _ hx))

theorem atoiDigits_uintToChars (n acc : Nat) :
    atoiDigits acc (uintToChars n) = acc * 10 ^ (uintToChars n).length + n := by
  induction n using Nat.strong_induction_on generalizing acc with
  | _ n ih =>
    rw [uintToChars.eq_def]
    split
    · next hn =>
      have hp := digitChar_props n hn
      simp only [atoiDigits, hp.1, if_true, List.length_singleton, pow_one, hp.2.2.2.2.2.2]
      omega
    · next hn =>
      rw [atoiDigits_append _ _ _ (uintToChars_digits _)]
      have hmod := digitChar_props (n % 10) (Nat.mod_lt _ (by norm_num))
      rw [ih (n / 10) (Nat.div_lt_self (by omega) (by norm_num)) acc]
      simp only [atoiDigits, hmod.1, if_true, List.length_append, List.length_singleton,
        hmod.2.2.2.2.2.2]
      have : acc * 10 ^ ((uintToChars (n / 10)).length + 1)
          = acc * 10 ^ (uintToChars (n / 10)).length * 10 := by ring
      rw [this]
      omega

theorem atoi_uintToChars (n : Nat) : atoi (uintToChars n) = (n : Int) := by
  obtain ⟨c, cs, hu⟩ : ∃ c cs, uintToChars n = c :: cs := by
    cases h : uintToChars n with
    | nil => exact absurd h (uintToChars_ne_nil n)
    | cons c cs => exact ⟨c, cs, rfl⟩
  have hcmem : c ∈ uintToChars n := by rw [hu]; simp
  obtain ⟨d, hd, hcd⟩ := mem_uintToChars n c hcmem
  have hprops := digitChar_props d hd
  have hspace : isSpaceC c = false := by rw [hcd]; exact hprops.2.2.2.2.2.1
  have hminus : c ≠ '-' := by rw [hcd]; exact hprops.2.2.2.1
  have hplus : c ≠ '+' := by rw [hcd]; exact hprops.2.2.2.2.1
  have hval : atoiDigits 0 (uintToChars n) = n := by
    rw [atoiDigits_uintToChars]
    omega
  unfold atoi
  rw [hu, List.dropWhile_cons]
  simp only [hspace, Bool.false_eq_true, if_false]
  split
  · next heq =>
    rw [List.cons.injEq] at heq
    exact absurd heq.1 hminus
  · next heq =>
    rw [List.cons.injEq] at heq
    exact absurd heq.1 hplus
  · rw [← hu, hval]

theorem atoiMask8_lt (s : Chars) : atoiMask8 s < 256 := by
  unfold atoiMask8
  have h1 : 0 ≤ atoi s % 256 := Int.emod_nonneg _ (by norm_num)
  have h2 : atoi s % 256 < 256 := Int.emod_lt_of_pos _ (by norm_num)
  omega

theorem atoiMask16_lt (s : Chars) : atoiMask16 s < 65536 := by
  unfold atoiMask16
  have h1 : 0 ≤ atoi s % 65536 := Int.emod_nonneg _ (by norm_num)
  have h2 : atoi s % 65536 < 65536 := Int.emod_lt_of_pos _ (by norm_num)
  omega

theorem atoiMask8_uintToChars (n : Nat) (h : n < 256) : atoiMask8 (uintToChars n) = n := by
  unfold atoiMask8
  rw [atoi_uintToChars]
  omega

theorem atoiMask16_uintToChars (n : Nat) (h : n < 65536) : atoiMask16 (uintToChars n) = n := by
  unfold atoiMask16
  rw [atoi_uintToChars]
  omega

/-! ## Case-insensitive comparison and the `LOAD` lookup loop -/

theorem strCaseEq_iff (a b : Chars) :
    strCaseEq a b = true ↔ a.map toLowerAscii = b.map toLowerAscii := by
  simp [strCaseEq]

theorem strCaseEq_refl (a : Chars) : strCaseEq a a = true := by
  simp [strCaseEq]

theorem strCaseEq_symm (a b : Chars) (h : strCaseEq a b = true) : strCaseEq b a = true := by
  rw [strCaseEq_iff] at h ⊢
  exact h.symm

theorem strCaseEq_trans (a b c : Chars) (h1 : strCaseEq a b = true)
    (h2 : strCaseEq b c = true) : strCaseEq a c = true := by
  rw [strCaseEq_iff] at h1 h2 ⊢
  exact h1.trans h2

/-- The lookup loop computed through `List.findIdx?`: the stored index
is the lowest case-insensitive match truncated to `uint8_t` (the loop
starts its counter at `i`). -/
theorem lookupSaveAux_findIdx (arg : Chars) (saves : List Chars) (i : Nat) :
    lookupSaveAux arg saves i
      = (match saves.findIdx? (fun s => strCaseEq arg s) with
        | none => SAVE_INDEX_INVALID
        | some j => (i + j) % 256) := by
  induction saves generalizing i with
  | nil => rfl
  | cons s rest ih =>
    rw [List.findIdx?_cons]
    by_cases h : strCaseEq arg s = true
    · simp only [lookupSaveAux, h, if_true]
      simp
    · simp only [lookupSaveAux, h, Bool.false_eq_true, if_false, ih (i + 1),
        List.findIdx?_succ]
      cases hf : rest.findIdx? (fun s => strCaseEq arg s) with
      | none => simp [hf]
      | some j =>
        simp only [hf]
        show (i + 1 + j) % 256 = (i + (j + 1)) % 256
        omega

theorem lookupSave_findIdx (saves : List Chars) (arg : Chars) :
    lookupSave saves arg
      = (match saves.findIdx? (fun s => strCaseEq arg s) with
        | none => SAVE_INDEX_INVALID
        | some j => j % 256) := by
  rw [lookupSave, lookupSaveAux_findIdx]
  cases saves.findIdx? (fun s => strCaseEq arg s) <;> simp

/-- Full case analysis of the lookup loop when the save list has at
most 255 entries (so the `uint8_t` cast is the identity on matches and
cannot collide with the sentinel). -/
theorem lookupSaveAux_spec (arg : Chars) (saves : List Chars) (i : Nat)
    (hb : i + saves.length ≤ 255) :
    (lookupSaveAux arg saves i = SAVE_INDEX_INVALID ∧ ∀ s ∈ saves, strCaseEq arg s = false)
  ∨ (∃ j, j < saves.length ∧ lookupSaveAux arg saves i = i + j
      ∧ strCaseEq arg (saves.getD j []) = true
      ∧ ∀ k < j, strCaseEq arg (saves.getD k []) = false) := by
  induction saves generalizing i with
  | nil => exact Or.inl ⟨rfl, by simp⟩
  | cons s rest ih =>
    by_cases h : strCaseEq arg s = true
    · refine Or.inr ⟨0, by simp, ?_, by simpa using h, by omega⟩
      simp only [lookupSaveAux, h, if_true]
      have : i < 255 := by
        simp only [List.length_cons] at hb
        omega
      omega
    · have hb' : (i + 1) + rest.length ≤ 255 := by
        simp only [List.length_cons] at hb
        omega
      rcases ih (i + 1) hb' with ⟨heq, hall⟩ | ⟨j, hj, heq, hm, hf⟩
      · refine Or.inl ⟨?_, ?_⟩
        · simp only [lookupSaveAux, h, Bool.false_eq_true, if_false]
          exact heq
        · intro x hx
          rcases List.mem_cons.mp hx with rfl | hx
          · simpa using h
          · exact hall x hx
      · refine Or.inr ⟨j + 1, by simpa using hj, ?_, by simpa using hm, ?_⟩
        · simp only [lookupSaveAux, h, Bool.false_eq_true, if_false, heq]
          omega
        · intro k hk
          cases k with
          | zero => simpa using h
          | succ k =>
            have : k < j := by omega
            simpa using hf k this

/-- The lookup loop returns exactly a given first match. -/
theorem lookupSaveAux_eq_of_first (arg : Chars) (saves : List Chars) (i j : Nat)
    (hb : i + saves.length ≤ 255) (hj : j < saves.length)
    (hm : strCaseEq arg (saves.getD j []) = true)
    (hf : ∀ k < j, strCaseEq arg (saves.getD k []) = false) :
    lookupSaveAux arg saves i = i + j := by
  induction saves generalizing i j with
  | nil => simp at hj
  | cons s rest ih =>
    cases j with
    | zero =>
      have hm0 : strCaseEq arg s = true := by simpa using hm
      simp only [lookupSaveAux, hm0, if_true]
      have : i < 255 := by
        simp only [List.length_cons] at hb
        omega
      omega
    | succ j =>
      have h0 : strCaseEq arg s = false := by simpa using hf 0 (by omega)
      simp only [lookupSaveAux, h0, Bool.false_eq_true, if_false]
      have := ih (i + 1) j
        (by simp only [List.length_cons] at hb; omega)
        (by simpa using hj)
        (by simpa using hm)
        (fun k hk => by simpa using hf (k + 1) (by omega))
      rw [this]
      omega

/-! ## Decoder dispatch on the concrete keywords -/

theorem decodeParts_LOAD (saves : List Chars) (p1 p2 : Chars) :
    decodeParts saves "LOAD".data p1 p2 = .Load (lookupSave saves p1) := by
  unfold decodeParts
  rw [if_neg (by decide), if_pos (by decide)]

theorem decodeParts_LOCATION (saves : List Chars) (p1 p2 : Chars) :
    decodeParts saves "LOCATION".data p1 p2 = .Location (atoiMask8 p1) (atoiMask8 p2) := by
  unfold decodeParts
  rw [if_neg (by decide), if_neg (by decide), if_pos (by decide)]

theorem decodeParts_ROTATE (saves : List Chars) (p1 p2 : Chars) :
    decodeParts saves "ROTATE".data p1 p2 = .Rotate (atoiMask8 p1) := by
  unfold decodeParts
  rw [if_neg (by decide), if_neg (by decide), if_neg (by decide), if_pos (by decide)]

theorem decodeParts_ZOOM (saves : List Chars) (p1 p2 : Chars) :
    decodeParts saves "ZOOM".data p1 p2 = .Zoom (atoiMask8 p1) := by
  unfold decodeParts
  rw [if_neg (by decide), if_neg (by decide), if_neg (by decide), if_neg (by decide),
    if_pos (by decide)]

theorem decodeParts_SPEED (saves : List Chars) (p1 p2 : Chars) :
    decodeParts saves "SPEED".data p1 p2 = .Speed (max 1 (min 4 (atoiMask8 p1))) := by
  unfold decodeParts
  rw [if_neg (by decide), if_neg (by decide), if_neg (by decide), if_neg (by decide),
    if_neg (by decide), if_pos (by decide)]

theorem decodeParts_FOLLOW (saves : List Chars) (p1 p2 : Chars) :
    decodeParts saves "FOLLOW".data p1 p2
      = .Follow (atoiMask16 p1) (safe_strcpy SPRITE_NAME_CAPACITY p2) := by
  unfold decodeParts
  rw [if_neg (by decide), if_neg (by decide), if_neg (by decide), if_neg (by decide),
    if_neg (by decide), if_neg (by decide), if_pos (by decide)]

theorem decodeParts_WAIT (saves : List Chars) (p1 p2 : Chars) :
    decodeParts saves "WAIT".data p1 p2 = .Wait (atoiMask16 p1) := by
  unfold decodeParts
  rw [if_neg (by decide), if_neg (by decide), if_neg (by decide), if_neg (by decide),
    if_neg (by decide), if_neg (by decide), if_neg (by decide), if_pos (by decide)]

theorem decodeParts_RESTART (saves : List Chars) (p1 p2 : Chars) :
    decodeParts saves "RESTART".data p1 p2 = .Restart := by
  unfold decodeParts
  rw [if_neg (by decide), if_neg (by decide), if_neg (by decide), if_neg (by decide),
    if_neg (by decide), if_neg (by decide), if_neg (by decide), if_neg (by decide),
    if_pos (by decide)]

theorem decodeParts_END (saves : List Chars) (p1 p2 : Chars) :
    decodeParts saves "END".data p1 p2 = .End := by
  unfold decodeParts
  rw [if_neg (by decide), if_neg (by decide), if_neg (by decide), if_neg (by decide),
    if_neg (by decide), if_neg (by decide), if_neg (by decide), if_neg (by decide),
    if_neg (by decide), if_pos (by decide)]

theorem decodeParts_LOADSC (saves : List Chars) (p1 p2 : Chars) :
    decodeParts saves "LOADSC".data p1 p2 = .LoadSc (safe_strcpy SCENARIO_CAPACITY p1) := by
  unfold decodeParts
  rw [if_neg (by decide), if_neg (by decide), if_neg (by decide), if_neg (by decide),
    if_neg (by decide), if_neg (by decide), if_neg (by decide), if_neg (by decide),
    if_neg (by decide), if_neg (by decide), if_pos (by decide)]

theorem decodeParts_empty (saves : List Chars) (p1 p2 : Chars) :
    decodeParts saves [] p1 p2 = .Undefined := by
  unfold decodeParts
  rw [if_pos (by decide)]

/-! ## Tokenizer output invariant: fields are storable text of at most
127 characters -/

theorem tokStep_inv (st : TokState) (c : Char)
    (hc : (c == '\n' || c == '\r') = false)
    (h0 : cleanStr st.buf0 = true ∧ st.buf0.length ≤ 127)
    (h1 : cleanStr st.buf1 = true ∧ st.buf1.length ≤ 127)
    (h2 : cleanStr st.buf2 = true ∧ st.buf2.length ≤ 127) :
    (cleanStr (tokStep st c).buf0 = true ∧ (tokStep st c).buf0.length ≤ 127)
  ∧ (cleanStr (tokStep st c).buf1 = true ∧ (tokStep st c).buf1.length ≤ 127)
  ∧ (cleanStr (tokStep st c).buf2 = true ∧ (tokStep st c).buf2.length ≤ 127) := by
  unfold tokStep
  by_cases hh : (c == '#') = true
  · rw [if_pos hh]
    exact ⟨h0, h1, h2⟩
  · rw [if_neg hh]
    have hcl : cleanChar c = true := by
      simp only [Bool.or_eq_false_iff] at hc
      simp [cleanChar, hc.1, hc.2]
      simpa using hh
    by_cases hsp : (c == ' ' && !st.comment && !st.load && (!st.sprite || st.part != 2)) = true
    · rw [if_pos hsp]
      by_cases hws : st.whitespace = true
      · rw [if_pos hws]
        exact ⟨h0, h1, h2⟩
      · rw [if_neg hws]
        exact ⟨h0, h1, h2⟩
    · rw [if_neg hsp]
      by_cases hcm : st.comment = true
      · rw [if_pos hcm]
        exact ⟨h0, h1, h2⟩
      · rw [if_neg hcm]
        by_cases hlen : st.cur.length < 127
        · rw [if_pos hlen]
          rcases st with ⟨b0, b1, b2, p, ws, cm, l, sp⟩
          unfold TokState.pushW TokState.push
          unfold TokState.cur at hlen
          rcases p with - | - | p <;>
            simp_all [cleanStr, List.all_append] <;> omega
        · rw [if_neg hlen]
          exact ⟨h0, h1, h2⟩

theorem getLineAux_inv (input : Chars) (st : TokState)
    (h0 : cleanStr st.buf0 = true ∧ st.buf0.length ≤ 127)
    (h1 : cleanStr st.buf1 = true ∧ st.buf1.length ≤ 127)
    (h2 : cleanStr st.buf2 = true ∧ st.buf2.length ≤ 127) :
    (cleanStr (getLineAux st input).1.buf0 = true ∧ (getLineAux st input).1.buf0.length ≤ 127)
  ∧ (cleanStr (getLineAux st input).1.buf1 = true ∧ (getLineAux st input).1.buf1.length ≤ 127)
  ∧ (cleanStr (getLineAux st input).1.buf2 = true
      ∧ (getLineAux st input).1.buf2.length ≤ 127) := by
  induction input generalizing st with
  | nil =>
    rw [getLineAux_nil]
    exact ⟨h0, h1, h2⟩
  | cons c rest ih =>
    by_cases h3 : 3 ≤ st.part
    · rw [getLineAux_done st _ h3]
      exact ⟨h0, h1, h2⟩
    · by_cases hnl : (c == '\n' || c == '\r') = true
      · rw [getLineAux_newline st c rest h3 hnl]
        exact ⟨h0, h1, h2⟩
      · rw [getLineAux_step st c rest h3 (by simpa using hnl)]
        obtain ⟨g0, g1, g2⟩ := tokStep_inv st c (by simpa using hnl) h0 h1 h2
        exact ih (tokStep st c) g0 g1 g2

/-- The three fields produced by `LegacyScriptGetLine` contain no line
terminator or comment marker and hold at most 127 characters each. -/
theorem LegacyScriptGetLine_inv (input : Chars) :
    (cleanStr (LegacyScriptGetLine input).1.1 = true
      ∧ (LegacyScriptGetLine input).1.1.length ≤ 127)
  ∧ (cleanStr (LegacyScriptGetLine input).1.2.1 = true
      ∧ (LegacyScriptGetLine input).1.2.1.length ≤ 127)
  ∧ (cleanStr (LegacyScriptGetLine input).1.2.2 = true
      ∧ (LegacyScriptGetLine input).1.2.2.length ≤ 127) :=
  getLineAux_inv input {} ⟨rfl, by simp⟩ ⟨rfl, by simp⟩ ⟨rfl, by simp⟩

/-- One unfolding step of the decoder loop. -/
theorem LegacyScriptRead_step (saves : List Chars) (script : Chars)
    (parts : Chars × Chars × Chars) (rest : Chars)
    (h : LegacyScriptGetLine script = (parts, rest)) :
    LegacyScriptRead saves script
      = (if decodeParts saves parts.1 parts.2.1 parts.2.2 = .Undefined
         then (if rest = [] then [] else LegacyScriptRead saves rest)
         else decodeParts saves parts.1 parts.2.1 parts.2.2
           :: (if rest = [] then [] else LegacyScriptRead saves rest)) := by
  rw [LegacyScriptRead.eq_def, h]
  simp only [dite_eq_ite]

/-- Decoding a script consisting of a single (recognized) line. -/
theorem LegacyScriptRead_single (saves : List Chars) (script : Chars)
    (t p1 p2 : Chars)
    (h : LegacyScriptGetLine script = ((t, p1, p2), []))
    (hne : decodeParts saves t p1 p2 ≠ .Undefined) :
    LegacyScriptRead saves script = [decodeParts saves t p1 p2] := by
  rw [LegacyScriptRead_step saves script (t, p1, p2) [] h, if_neg hne, if_pos rfl]

/-! ## Every decoded command satisfies `GoodCmd` -/

theorem cleanStr_take (s : Chars) (n : Nat) (h : cleanStr s = true) :
    cleanStr (s.take n) = true := by
  rw [cleanStr, List.all_eq_true] at h ⊢
  intro c hc
  exact h c (List.mem_of_mem_take hc)

theorem lookupSave_good (saves : List Chars) (arg : Chars) (hlen : saves.length ≤ 255) :
    lookupSave saves arg = SAVE_INDEX_INVALID
  ∨ (lookupSave saves arg < saves.length
      ∧ lookupSave saves (saves.getD (lookupSave saves arg) [])
        = lookupSave saves arg) := by
  rcases lookupSaveAux_spec arg saves 0 (by omega) with ⟨heq, -⟩ | ⟨j, hj, heq, hm, hf⟩
  · exact Or.inl heq
  · have hl : lookupSave saves arg = j := by
      rw [lookupSave, heq]
      omega
    right
    refine ⟨by omega, ?_⟩
    rw [hl]
    have hfirst := lookupSaveAux_eq_of_first (saves.getD j []) saves 0 j (by omega) hj
      (strCaseEq_refl _)
      (fun k hk => by
        by_contra hcontra
        have hkm : strCaseEq (saves.getD j []) (saves.getD k []) = true := by
          cases hx : strCaseEq (saves.getD j []) (saves.getD k [])
          · exact absurd hx hcontra
          · rfl
        have : strCaseEq arg (saves.getD k []) = true :=
          strCaseEq_trans _ _ _ hm hkm
        rw [hf k hk] at this
        exact Bool.false_ne_true this)
    rw [lookupSave, hfirst]
    omega

theorem decodeParts_cases (saves : List Chars) (tok p1 p2 : Chars) :
    decodeParts saves tok p1 p2 = .Undefined
  ∨ decodeParts saves tok p1 p2 = .Load (lookupSave saves p1)
  ∨ decodeParts saves tok p1 p2 = .Location (atoiMask8 p1) (atoiMask8 p2)
  ∨ decodeParts saves tok p1 p2 = .Rotate (atoiMask8 p1)
  ∨ decodeParts saves tok p1 p2 = .Zoom (atoiMask8 p1)
  ∨ decodeParts saves tok p1 p2 = .Speed (max 1 (min 4 (atoiMask8 p1)))
  ∨ decodeParts saves tok p1 p2
      = .Follow (atoiMask16 p1) (safe_strcpy SPRITE_NAME_CAPACITY p2)
  ∨ decodeParts saves tok p1 p2 = .Wait (atoiMask16 p1)
  ∨ decodeParts saves tok p1 p2 = .Restart
  ∨ decodeParts saves tok p1 p2 = .End
  ∨ decodeParts saves tok p1 p2 = .LoadSc (safe_strcpy SCENARIO_CAPACITY p1) := by
  unfold decodeParts
  by_cases c0 : tok.isEmpty = true
  · rw [if_pos c0]
    exact Or.inl rfl
  rw [if_neg c0]
  by_cases c1 : strCaseEq tok "LOAD".data = true
  · rw [if_pos c1]
    exact Or.inr (Or.inl rfl)
  rw [if_neg c1]
  by_cases c2 : strCaseEq tok "LOCATION".data = true
  · rw [if_pos c2]
    exact Or.inr (Or.inr (Or.inl rfl))
  rw [if_neg c2]
  by_cases c3 : strCaseEq tok "ROTATE".data = true
  · rw [if_pos c3]
    exact Or.inr (Or.inr (Or.inr (Or.inl rfl)))
  rw [if_neg c3]
  by_cases c4 : strCaseEq tok "ZOOM".data = true
  · rw [if_pos c4]
    exact Or.inr (Or.inr (Or.inr (Or.inr (Or.inl rfl))))
  rw [if_neg c4]
  by_cases c5 : strCaseEq tok "SPEED".data = true
  · rw [if_pos c5]
    exact Or.inr (Or.inr (Or.inr (Or.inr (Or.inr (Or.inl rfl)))))
  rw [if_neg c5]
  by_cases c6 : strCaseEq tok "FOLLOW".data = true
  · rw [if_pos c6]
    exact Or.inr (Or.inr (Or.inr (Or.inr (Or.inr (Or.inr (Or.inl rfl))))))
  rw [if_neg c6]
  by_cases c7 : strCaseEq tok "WAIT".data = true
  · rw [if_pos c7]
    exact Or.inr (Or.inr (Or.inr (Or.inr (Or.inr (Or.inr (Or.inr (Or.inl rfl)))))))
  rw [if_neg c7]
  by_cases c8 : strCaseEq tok "RESTART".data = true
  · rw [if_pos c8]
    exact Or.inr (Or.inr (Or.inr (Or.inr (Or.inr (Or.inr (Or.inr (Or.inr (Or.inl rfl))))))))
  rw [if_neg c8]
  by_cases c9 : strCaseEq tok "END".data = true
  · rw [if_pos c9]
    exact Or.inr (Or.inr (Or.inr (Or.inr (Or.inr (Or.inr (Or.inr (Or.inr (Or.inr
      (Or.inl rfl)))))))))
  rw [if_neg c9]
  by_cases c10 : strCaseEq tok "LOADSC".data = true
  · rw [if_pos c10]
    exact Or.inr (Or.inr (Or.inr (Or.inr (Or.inr (Or.inr (Or.inr (Or.inr (Or.inr
      (Or.inr rfl)))))))))
  rw [if_neg c10]
  exact Or.inl rfl

theorem decodeParts_good (saves : List Chars) (tok p1 p2 : Chars)
    (hlen : saves.length ≤ 255)
    (hp1 : cleanStr p1 = true) (hp2 : cleanStr p2 = true)
    (hcmd : decodeParts saves tok p1 p2 ≠ .Undefined)
    (hsc : decodeParts saves tok p1 p2 ≠ .LoadSc []) :
    GoodCmd saves (decodeParts saves tok p1 p2) := by
  rcases decodeParts_cases saves tok p1 p2 with
    h | h | h | h | h | h | h | h | h | h | h
  · exact absurd h hcmd
  · rw [h]
    simp only [GoodCmd]
    rcases lookupSave_good saves p1 hlen with hg | hg
    · exact Or.inl hg
    · exact Or.inr hg
  · rw [h]
    exact ⟨atoiMask8_lt _, atoiMask8_lt _⟩
  · rw [h]
    exact atoiMask8_lt _
  · rw [h]
    exact atoiMask8_lt _
  · rw [h]
    simp only [GoodCmd]
    constructor
    · exact le_max_left _ _
    · have : min 4 (atoiMask8 p1) ≤ 4 := min_le_left _ _
      omega
  · rw [h]
    exact ⟨atoiMask16_lt _, by simp [safe_strcpy, SPRITE_NAME_CAPACITY],
      cleanStr_take _ _ hp2⟩
  · rw [h]
    exact atoiMask16_lt _
  · rw [h]
    trivial
  · rw [h]
    trivial
  · rw [h]
    simp only [GoodCmd]
    refine ⟨?_, by simp [safe_strcpy, SCENARIO_CAPACITY], cleanStr_take _ _ hp1⟩
    intro hnil
    rw [h, hnil] at hsc
    exact hsc rfl

theorem LegacyScriptGetLine_nil : LegacyScriptGetLine [] = (([], [], []), []) := by
  unfold LegacyScriptGetLine
  rw [getLineAux_nil]

theorem LegacyScriptRead_good (saves : List Chars) (hlen : saves.length ≤ 255) :
    ∀ (n : Nat) (script : Chars), script.length ≤ n →
      ∀ c ∈ LegacyScriptRead saves script, c ≠ .LoadSc [] → GoodCmd saves c := by
  intro n
  induction n with
  | zero =>
    intro script hsl c hc hne
    have hnil : script = [] := List.length_eq_zero.mp (Nat.le_zero.mp hsl)
    subst hnil
    rw [LegacyScriptRead_step saves [] ([], [], []) [] LegacyScriptGetLine_nil,
      decodeParts_empty, if_pos rfl, if_pos rfl] at hc
    exact absurd hc (List.not_mem_nil c)
  | succ n ih =>
    intro script hsl c hc hne
    rcases hGL : LegacyScriptGetLine script with ⟨⟨t, p1, p2⟩, rest⟩
    have hinv := LegacyScriptGetLine_inv script
    rw [hGL] at hinv
    have hrest : rest ≠ [] → c ∈ LegacyScriptRead saves rest → GoodCmd saves c := by
      intro hrne hcr
      have hscr : script ≠ [] := by
        intro hx
        subst hx
        rw [LegacyScriptGetLine_nil] at hGL
        exact hrne (congrArg Prod.snd hGL).symm
      have hlt := LegacyScriptGetLine_snd_lt script hscr
      rw [hGL] at hlt
      have hlt2 : rest.length < script.length := by simpa using hlt
      exact ih rest (by omega) c hcr hne
    rw [LegacyScriptRead_step saves script (t, p1, p2) rest hGL] at hc
    by_cases hund : decodeParts saves t p1 p2 = .Undefined
    · rw [if_pos hund] at hc
      by_cases hrne : rest = []
      · rw [if_pos hrne] at hc
        simp at hc
      · rw [if_neg hrne] at hc
        exact hrest hrne hc
    · rw [if_neg hund] at hc
      rcases List.mem_cons.mp hc with rfl | hc
      · exact decodeParts_good saves t p1 p2 hlen hinv.2.1.1 hinv.2.2.1 hund hne
      · by_cases hrne : rest = []
        · rw [if_pos hrne] at hc
          simp at hc
        · rw [if_neg hrne] at hc
          exact hrest hrne hc

/-! ## Per-command encode/decode round trip -/

theorem uintToChars_length (k n : Nat) (hk : 1 ≤ k) (h : n < 10 ^ k) :
    (uintToChars n).length ≤ k := by
  induction n using Nat.strong_induction_on generalizing k with
  | _ n ih =>
    rw [uintToChars.eq_def]
    split
    · next => simpa using hk
    · next hn =>
      have hk2 : 2 ≤ k := by
        by_contra hcon
        have hk1 : k = 1 := by omega
        subst hk1
        simp at h
        omega
      have hdiv : n / 10 < 10 ^ (k - 1) := by
        have h10 : 10 ^ k = 10 ^ (k - 1) * 10 := by
          rw [← pow_succ]
          congr 1
          omega
        omega
      have := ih (n / 10) (Nat.div_lt_self (by omega) (by norm_num)) (k - 1)
        (by omega) hdiv
      simp only [List.length_append, List.length_singleton]
      omega

theorem lookupSaveAux_no_match (arg : Chars) (saves : List Chars) (i : Nat)
    (h : ∀ e ∈ saves, strCaseEq arg e = false) :
    lookupSaveAux arg saves i = SAVE_INDEX_INVALID := by
  induction saves generalizing i with
  | nil => rfl
  | cons s rest ih =>
    have hs : strCaseEq arg s = false := h s (by simp)
    simp only [lookupSaveAux, hs, Bool.false_eq_true, if_false]
    exact ih _ (fun e he => h e (List.mem_cons_of_mem _ he))

theorem encodeCommand_roundtrip (saves : List Chars) (c : TitleCommand) (more : Chars)
    (hws : WellFormedSaves saves) (hc : GoodCmd saves c) :
    ∃ t p1 p2,
      LegacyScriptGetLine (encodeCommand saves c ++ '\n' :: more) = ((t, p1, p2), more)
      ∧ decodeParts saves t p1 p2 = c := by
  obtain ⟨hlen, hentries⟩ := hws
  cases c with
  | Load s =>
    rcases hc with hs | ⟨hslt, hlook⟩
    · refine ⟨"LOAD".data, "<No save file>".data, [], ?_, ?_⟩
      · have hshape : encodeCommand saves (.Load s) ++ '\n' :: more
            = "LOAD".data ++ ' ' :: ("<No save file>".data ++ '\n' :: more) := by
          simp only [encodeCommand]
          rw [dif_neg (by rw [hs]; unfold SAVE_INDEX_INVALID; omega)]
          rfl
        rw [hshape]
        exact getLine_load_line _ _ _ (by decide) (by decide) (by decide) (by decide)
          (by decide) (by decide) (by decide)
      · rw [decodeParts_LOAD, hs]
        have hnom : ∀ e ∈ saves, strCaseEq "<No save file>".data e = false := by
          intro e he
          cases hx : strCaseEq "<No save file>".data e
          · rfl
          · have := strCaseEq_symm _ _ hx
            rw [(hentries e he).2.2] at this
            exact absurd this (by simp)
        rw [lookupSave, lookupSaveAux_no_match _ _ _ hnom]
    · have hentry : saves.getD s [] ∈ saves := by
        rw [List.getD_eq_getElem _ _ hslt]
        exact List.getElem_mem hslt
      obtain ⟨hec, hel, -⟩ := hentries _ hentry
      refine ⟨"LOAD".data, saves.getD s [], [], ?_, ?_⟩
      · have hshape : encodeCommand saves (.Load s) ++ '\n' :: more
            = "LOAD".data ++ ' ' :: (saves.getD s [] ++ '\n' :: more) := by
          simp only [encodeCommand]
          rw [dif_pos hslt, List.get_eq_getElem, ← List.getD_eq_getElem saves [] hslt]
          simp [List.append_assoc]
        rw [hshape]
        exact getLine_load_line _ _ _ (by decide) (by decide) (by decide) (by decide)
          (by decide) hec hel
      · rw [decodeParts_LOAD, hlook]
  | LoadSc sc =>
    obtain ⟨hne, hsclen, hscclean⟩ := hc
    have hnee : sc.isEmpty = false := by simpa using hne
    refine ⟨"LOADSC".data, sc, [], ?_, ?_⟩
    · have hshape : encodeCommand saves (.LoadSc sc) ++ '\n' :: more
          = "LOADSC".data ++ ' ' :: (sc ++ '\n' :: more) := by
        simp only [encodeCommand]
        rw [if_neg (by simp [hnee])]
        simp [List.append_assoc]
      rw [hshape]
      exact getLine_load_line _ _ _ (by decide) (by decide) (by decide) (by decide)
        (by decide) hscclean (by unfold SCENARIO_CAPACITY at hsclen; omega)
    · rw [decodeParts_LOADSC, safe_strcpy, List.take_of_length_le hsclen]
  | Location x y =>
    obtain ⟨hx, hy⟩ := hc
    refine ⟨"LOCATION".data, uintToChars x, uintToChars y, ?_, ?_⟩
    · have hshape : encodeCommand saves (.Location x y) ++ '\n' :: more
          = "LOCATION".data
            ++ ' ' :: (uintToChars x ++ ' ' :: (uintToChars y ++ '\n' :: more)) := by
        simp only [encodeCommand]
        simp [List.append_assoc]
      rw [hshape]
      exact getLine_three_line _ _ _ _ (by decide) (by decide) (by decide) (by decide)
        (by decide) (by decide)
        (uintToChars_clean x) (uintToChars_no_space x) (uintToChars_ne_nil x)
        (le_trans (uintToChars_length 3 x (by omega) (by omega)) (by omega))
        (uintToChars_clean y) (uintToChars_no_space y)
        (le_trans (uintToChars_length 3 y (by omega) (by omega)) (by omega))
    · rw [decodeParts_LOCATION, atoiMask8_uintToChars x hx, atoiMask8_uintToChars y hy]
  | Rotate r =>
    have hr : r < 256 := hc
    refine ⟨"ROTATE".data, uintToChars r, [], ?_, ?_⟩
    · have hshape : encodeCommand saves (.Rotate r) ++ '\n' :: more
          = "ROTATE".data ++ ' ' :: (uintToChars r ++ '\n' :: more) := by
        simp only [encodeCommand]
        simp [List.append_assoc]
      rw [hshape]
      exact getLine_two_line _ _ _ (by decide) (by decide) (by decide) (by decide)
        (by decide) (by decide) (uintToChars_clean r) (uintToChars_no_space r)
        (le_trans (uintToChars_length 3 r (by omega) (by omega)) (by omega))
    · rw [decodeParts_ROTATE, atoiMask8_uintToChars r hr]
  | Zoom z =>
    have hz : z < 256 := hc
    refine ⟨"ZOOM".data, uintToChars z, [], ?_, ?_⟩
    · have hshape : encodeCommand saves (.Zoom z) ++ '\n' :: more
          = "ZOOM".data ++ ' ' :: (uintToChars z ++ '\n' :: more) := by
        simp only [encodeCommand]
        simp [List.append_assoc]
      rw [hshape]
      exact getLine_two_line _ _ _ (by decide) (by decide) (by decide) (by decide)
        (by decide) (by decide) (uintToChars_clean z) (uintToChars_no_space z)
        (le_trans (uintToChars_length 3 z (by omega) (by omega)) (by omega))
    · rw [decodeParts_ZOOM, atoiMask8_uintToChars z hz]
  | Speed s =>
    obtain ⟨h1, h4⟩ := hc
    refine ⟨"SPEED".data, uintToChars s, [], ?_, ?_⟩
    · have hshape : encodeCommand saves (.Speed s) ++ '\n' :: more
          = "SPEED".data ++ ' ' :: (uintToChars s ++ '\n' :: more) := by
        simp only [encodeCommand]
        simp [List.append_assoc]
      rw [hshape]
      exact getLine_two_line _ _ _ (by decide) (by decide) (by decide) (by decide)
        (by decide) (by decide) (uintToChars_clean s) (uintToChars_no_space s)
        (le_trans (uintToChars_length 3 s (by omega) (by omega)) (by omega))
    · rw [decodeParts_SPEED, atoiMask8_uintToChars s (by omega)]
      congr 1
      omega
  | Follow si nm =>
    obtain ⟨hsi, hnmlen, hnmclean⟩ := hc
    refine ⟨"FOLLOW".data, uintToChars si, nm, ?_, ?_⟩
    · have hshape : encodeCommand saves (.Follow si nm) ++ '\n' :: more
          = "FOLLOW".data
            ++ ' ' :: (uintToChars si ++ ' ' :: (nm ++ '\n' :: more)) := by
        simp only [encodeCommand]
        simp [List.append_assoc]
      rw [hshape]
      exact getLine_follow_line _ _ _ _ (by decide) (by decide) (by decide) (by decide)
        (by decide) (by decide)
        (uintToChars_clean si) (uintToChars_no_space si) (uintToChars_ne_nil si)
        (le_trans (uintToChars_length 5 si (by omega) (by omega)) (by omega))
        hnmclean (by unfold SPRITE_NAME_CAPACITY at hnmlen; omega)
    · rw [decodeParts_FOLLOW, atoiMask16_uintToChars si hsi, safe_strcpy,
        List.take_of_length_le hnmlen]
  | Wait ms =>
    have hms : ms < 65536 := hc
    refine ⟨"WAIT".data, uintToChars ms, [], ?_, ?_⟩
    · have hshape : encodeCommand saves (.Wait ms) ++ '\n' :: more
          = "WAIT".data ++ ' ' :: (uintToChars ms ++ '\n' :: more) := by
        simp only [encodeCommand]
        simp [List.append_assoc]
      rw [hshape]
      exact getLine_two_line _ _ _ (by decide) (by decide) (by decide) (by decide)
        (by decide) (by decide) (uintToChars_clean ms) (uintToChars_no_space ms)
        (le_trans (uintToChars_length 5 ms (by omega) (by omega)) (by omega))
    · rw [decodeParts_WAIT, atoiMask16_uintToChars ms hms]
  | Restart =>
    refine ⟨"RESTART".data, [], [], ?_, ?_⟩
    · have hshape : encodeCommand saves .Restart ++ '\n' :: more
          = "RESTART".data ++ '\n' :: more := rfl
      rw [hshape]
      exact getLine_token_line _ _ (by decide) (by decide) (by decide) (by decide)
    · rw [decodeParts_RESTART]
  | End =>
    refine ⟨"END".data, [], [], ?_, ?_⟩
    · have hshape : encodeCommand saves .End ++ '\n' :: more
          = "END".data ++ '\n' :: more := rfl
      rw [hshape]
      exact getLine_token_line _ _ (by decide) (by decide) (by decide) (by decide)
    · rw [decodeParts_END]
  | Loop => exact hc.elim
  | EndLoop => exact hc.elim
  | Undefined => exact hc.elim

/-! ## Whole-script round trip -/

theorem GoodCmd_ne_Undefined (saves : List Chars) (c : TitleCommand)
    (hc : GoodCmd saves c) : c ≠ .Undefined := by
  intro h
  rw [h] at hc
  exact hc

theorem encode_list_roundtrip (saves : List Chars) (cmds : List TitleCommand)
    (hws : WellFormedSaves saves) (hall : ∀ c ∈ cmds, GoodCmd saves c) :
    LegacyScriptRead saves
      ((cmds.map (fun c => encodeCommand saves c ++ ['\n'])).flatten) = cmds := by
  induction cmds with
  | nil =>
    rw [show ((List.map (fun c => encodeCommand saves c ++ ['\n']) []).flatten : Chars)
        = [] from rfl]
    rw [LegacyScriptRead_step saves [] ([], [], []) [] LegacyScriptGetLine_nil,
      decodeParts_empty, if_pos rfl, if_pos rfl]
  | cons c cmds ih =>
    have hcg := hall c (by simp)
    have hflat : ((List.map (fun c => encodeCommand saves c ++ ['\n']) (c :: cmds)).flatten
          : Chars)
        = encodeCommand saves c
          ++ '\n' :: (List.map (fun c => encodeCommand saves c ++ ['\n']) cmds).flatten := by
      simp [List.append_assoc]
    rw [hflat]
    obtain ⟨t, p1, p2, hGL, hdec⟩ := encodeCommand_roundtrip saves c
      ((List.map (fun c => encodeCommand saves c ++ ['\n']) cmds).flatten) hws hcg
    rw [LegacyScriptRead_step saves _ (t, p1, p2) _ hGL, hdec,
      if_neg (GoodCmd_ne_Undefined saves c hcg)]
    cases cmds with
    | nil =>
      simp
    | cons c2 cmds2 =>
      have hne : ((List.map (fun c => encodeCommand saves c ++ ['\n'])
          (c2 :: cmds2)).flatten : Chars) ≠ [] := by
        simp
      rw [if_neg hne, ih (fun x hx => hall x (List.mem_cons_of_mem _ hx))]

theorem LegacyScriptWrite_read (seq : TitleSequence)
    (hws : WellFormedSaves seq.Saves)
    (hall : ∀ c ∈ seq.Commands, GoodCmd seq.Saves c)
    (hname : ∀ ch ∈ seq.Name, (ch == '\n' || ch == '\r') = false) :
    LegacyScriptRead seq.Saves (LegacyScriptWrite seq) = seq.Commands := by
  unfold LegacyScriptWrite
  have hshape : ("# SCRIPT FOR ".data ++ seq.Name ++ ['\n']
        ++ (seq.Commands.map (fun c => encodeCommand seq.Saves c ++ ['\n'])).flatten : Chars)
      = '#' :: ((" SCRIPT FOR ".data ++ seq.Name)
        ++ '\n' :: (seq.Commands.map (fun c => encodeCommand seq.Saves c ++ ['\n'])).flatten)
      := by
    simp [List.append_assoc]
  rw [hshape]
  have hGL := getLine_comment_line (" SCRIPT FOR ".data ++ seq.Name)
    ((seq.Commands.map (fun c => encodeCommand seq.Saves c ++ ['\n'])).flatten)
    (by
      intro ch hch
      rcases List.mem_append.mp hch with hm | hm
      · exact (by decide :
          ∀ x ∈ (" SCRIPT FOR ".data : Chars), (x == '\n' || x == '\r') = false) ch hm
      · exact hname ch hm)
  rw [LegacyScriptRead_step _ _ ([], [], []) _ hGL, decodeParts_empty, if_pos rfl]
  cases hcmds : seq.Commands with
  | nil =>
    simp
  | cons c2 cmds2 =>
    have hne : ((List.map (fun c => encodeCommand seq.Saves c ++ ['\n'])
        (c2 :: cmds2)).flatten : Chars) ≠ [] := by
      simp
    rw [if_neg hne]
    rw [hcmds] at hall
    exact encode_list_roundtrip seq.Saves (c2 :: cmds2) hws hall

/-! ## Claim theorems -/

theorem loadReindexSpec_of_reindex (i : Nat) (c : TitleCommand) :
    loadReindexSpec i c (reindexAfterRemove i c) := by
  cases c with
  | Load j =>
    simp only [loadReindexSpec, reindexAfterRemove]
    refine ⟨fun h1 => ?_, fun h2 => ?_, fun h3 => ?_⟩
    · rw [if_pos h1]
    · rw [if_neg (by omega), if_pos h2]
    · rw [if_neg (by omega), if_neg (by omega)]
  | LoadSc sc => rfl
  | Location x y => rfl
  | Rotate r => rfl
  | Zoom z => rfl
  | Speed s => rfl
  | Follow si nm => rfl
  | Wait ms => rfl
  | Restart => rfl
  | End => rfl
  | Loop => rfl
  | EndLoop => rfl
  | Undefined => rfl

/-- C1: for every sequence and valid index `i`, a `Remove(i)` whose
backend delete succeeds reports success, erases the save slot, and in
one pass over every command sets a `Load` of `i` to the sentinel,
decrements a `Load` above `i`, and leaves everything else (commands
below `i`, non-`Load` commands, and all other fields) unchanged. -/
theorem C1_remove_reindex (seq : TitleSequence) (i : Nat) (h : i < seq.Saves.length) :
    RemoveParkC1Spec seq i := by
  unfold RemoveParkC1Spec TitleSequenceRemovePark
  rw [if_pos h]
  simp only [if_true]
  refine ⟨trivial, trivial, trivial, trivial, trivial, by simp, ?_⟩
  intro k hk
  have hk2 : k < (seq.Commands.map (reindexAfterRemove i)).length := by
    simpa using hk
  rw [List.getD_eq_getElem _ _ hk2, List.getElem_map,
    ← List.getD_eq_getElem seq.Commands TitleCommand.Undefined hk]
  exact loadReindexSpec_of_reindex i _

theorem C1_remove_reindex_witness :
    1 < (⟨"t".data, "p".data, ["a".data, "b".data, "c".data],
        [.Load 0, .Load 1, .Load 2, .Load 255, .Wait 5], false⟩
        : TitleSequence).Saves.length
  ∧ RemoveParkC1Spec
      ⟨"t".data, "p".data, ["a".data, "b".data, "c".data],
        [.Load 0, .Load 1, .Load 2, .Load 255, .Wait 5], false⟩ 1 :=
  ⟨by decide, C1_remove_reindex _ 1 (by decide)⟩

/-- C2 (code bug): a sequence whose only command is a sentinel `Load`
satisfies the "sentinel or valid" invariant, the removal of entry 0
succeeds, and afterwards the invariant is broken: the reindexing pass
decremented the sentinel (255) to 254, which is neither the sentinel
nor a valid position in the one-entry list. -/
theorem C2_sentinel_corrupted :
    LoadIndexInvariant ⟨[], [], ["a".data, "b".data], [.Load 255], false⟩ = true
  ∧ TitleSequenceRemovePark ⟨[], [], ["a".data, "b".data], [.Load 255], false⟩ 0 true
      = some (true, ⟨[], [], ["b".data], [.Load 254], false⟩)
  ∧ LoadIndexInvariant ⟨[], [], ["b".data], [.Load 254], false⟩ = false := by
  refine ⟨by decide, by decide, by decide⟩

/-- C3 (counterexample): `TitleSequenceAddPark` on a directory-backed
sequence whose `File::Copy` fails reports failure yet has already
appended the new name to the save-entry list — the in-memory state is
not as it was before the call. -/
theorem C3_add_not_atomic_counterexample :
    (TitleSequenceAddPark ⟨[], [], ["x".data], [], false⟩ "p".data "n".data
      ⟨true, true, false⟩).1 = false
  ∧ (TitleSequenceAddPark ⟨[], [], ["x".data], [], false⟩ "p".data "n".data
      ⟨true, true, false⟩).2.Saves ≠ ["x".data] := by
  refine ⟨by decide, by decide⟩

/-- C3 (amended): remove and rename perform the backend I/O first, so
on failure they report `false` and leave the sequence exactly
unchanged; add, however, updates the save list before its backend I/O
(appending `name` when `path` is absent), reports failure on a failed
directory copy with the list already mutated, and even reports success
when the archive-branch source read fails. -/
theorem C3_mutation_failure_behaviour (seq : TitleSequence) (index : Nat) (name path : Chars)
    (eff : AddParkOracle) (h : index < seq.Saves.length) :
    MutationFailureSpec seq index name path eff := by
  refine ⟨?_, ?_, ?_, ?_, ?_⟩
  · unfold TitleSequenceRemovePark
    rw [if_pos h]
    rfl
  · unfold TitleSequenceRenamePark
    rw [if_pos h]
    rfl
  · unfold TitleSequenceAddPark
    by_cases hp : path ∈ seq.Saves <;>
      by_cases hz : seq.IsZip = true <;>
        by_cases hr : eff.readOk = true <;>
          by_cases hzo : eff.zipOpenOk = true <;>
            by_cases hcp : eff.copyOk = true <;>
              simp [hp, hz, hr, hzo, hcp]
  · intro hz hcp
    unfold TitleSequenceAddPark
    simp [hz, hcp]
  · intro hz hr
    unfold TitleSequenceAddPark
    simp [hz, hr]

theorem C3_mutation_failure_behaviour_witness :
    0 < (⟨[], [], ["x".data], [], false⟩ : TitleSequence).Saves.length
  ∧ MutationFailureSpec ⟨[], [], ["x".data], [], false⟩ 0 "n".data "p".data
      ⟨true, true, false⟩ :=
  ⟨by decide, C3_mutation_failure_behaviour _ 0 "n".data "p".data ⟨true, true, false⟩ (by decide)⟩

set_option maxRecDepth 10000 in
/-- C5 (counterexample): with 257 save entries where only the last
(position 256) matches, the `static_cast<uint8_t>` in the lookup loop
truncates the stored index to 0 — not the lowest matching position
256, and not the sentinel although a match exists. -/
theorem C5_lookup_truncation_counterexample :
    lookupSave (List.replicate 256 "b".data ++ ["a".data]) "a".data = 0
  ∧ (List.replicate 256 "b".data ++ ["a".data]).findIdx?
      (fun s => strCaseEq "a".data s) = some 256
  ∧ (0 : Nat) ≠ 256 := by
  refine ⟨by decide, by decide, by decide⟩

/-- C5 (amended): the `LOAD` lookup scans the save-entry list in order,
comparing case-insensitively; the stored index is the lowest matching
position reduced modulo 256 (the `uint8_t` cast), and the sentinel when
no entry matches.  For lists of at most 256 entries the reduction is
the identity, so first-exact-match-wins holds there, duplicates
included. -/
theorem C5_lookup_first_match_mod256 (saves : List Chars) (arg : Chars) :
    lookupSave saves arg
      = (match saves.findIdx? (fun s => strCaseEq arg s) with
        | none => SAVE_INDEX_INVALID
        | some j => j % 256) :=
  lookupSave_findIdx saves arg

/-- C6: numeric arguments go through `atoi` (parse leading digits, else
0) and a mask, never a rejection: `SPEED 0` decodes to `Speed 1`,
`SPEED 9` to `Speed 4`, `SPEED 2` to `Speed 2`, `LOCATION 300 -1` to
the 8-bit-masked `Location 44 255`, `WAIT 70000` to the 16-bit-masked
`Wait 4464`, non-numeric `ROTATE abc` to `Rotate 0`; and every decoded
command's numeric fields satisfy the mask bounds with `Speed` clamped
to `[1, 4]`. -/
theorem C6_numeric_masking :
    LegacyScriptRead [] "SPEED 0\n".data = [.Speed 1]
  ∧ LegacyScriptRead [] "SPEED 9\n".data = [.Speed 4]
  ∧ LegacyScriptRead [] "SPEED 2\n".data = [.Speed 2]
  ∧ LegacyScriptRead [] "LOCATION 300 -1\n".data = [.Location 44 255]
  ∧ LegacyScriptRead [] "WAIT 70000\n".data = [.Wait 4464]
  ∧ LegacyScriptRead [] "ROTATE abc\n".data = [.Rotate 0]
  ∧ ∀ saves tok p1 p2, NumericBoundsOK (decodeParts saves tok p1 p2) := by
  refine ⟨?_, ?_, ?_, ?_, ?_, ?_, ?_⟩
  · exact (LegacyScriptRead_single [] _ "SPEED".data "0".data [] (by decide)
      (by decide)).trans (by decide)
  · exact (LegacyScriptRead_single [] _ "SPEED".data "9".data [] (by decide)
      (by decide)).trans (by decide)
  · exact (LegacyScriptRead_single [] _ "SPEED".data "2".data [] (by decide)
      (by decide)).trans (by decide)
  · exact (LegacyScriptRead_single [] _ "LOCATION".data "300".data "-1".data (by decide)
      (by decide)).trans (by decide)
  · exact (LegacyScriptRead_single [] _ "WAIT".data "70000".data [] (by decide)
      (by decide)).trans (by decide)
  · exact (LegacyScriptRead_single [] _ "ROTATE".data "abc".data [] (by decide)
      (by decide)).trans (by decide)
  · intro saves tok p1 p2
    rcases decodeParts_cases saves tok p1 p2 with
      hx | hx | hx | hx | hx | hx | hx | hx | hx | hx | hx <;> rw [hx]
    · trivial
    · trivial
    · exact ⟨atoiMask8_lt _, atoiMask8_lt _⟩
    · exact atoiMask8_lt _
    · exact atoiMask8_lt _
    · refine ⟨le_max_left _ _, ?_⟩
      have : min 4 (atoiMask8 p1) ≤ 4 := min_le_left _ _
      omega
    · exact atoiMask16_lt _
    · exact atoiMask16_lt _
    · trivial
    · trivial
    · trivial

set_option maxRecDepth 10000 in
/-- C8 (counterexample): feeding the tokenizer a line of 129 `a`s, the
first field holds 127 characters, the 128th character is dropped, and
the 129th lands in the second field — excess is carried into the next
field, not discarded. -/
theorem C8_overflow_spills_counterexample :
    LegacyScriptGetLine (List.replicate 129 'a')
      = ((List.replicate 127 'a', ['a'], []), [])
  ∧ (LegacyScriptGetLine (List.replicate 129 'a')).1.2.1 ≠ [] := by
  refine ⟨by decide, by decide⟩

set_option maxRecDepth 10000 in
/-- C8 (amended): each of the tokenizer's three fields holds at most
127 characters on every input; an input character that would overflow
the current field closes it and is itself discarded, but subsequent
characters flow into the next field rather than being discarded (129
`a`s put 127 in the first field and the last one in the second). -/
theorem C8_field_capacity :
    (∀ input : Chars,
      (LegacyScriptGetLine input).1.1.length ≤ 127
      ∧ (LegacyScriptGetLine input).1.2.1.length ≤ 127
      ∧ (LegacyScriptGetLine input).1.2.2.length ≤ 127)
  ∧ LegacyScriptGetLine (List.replicate 129 'a')
      = ((List.replicate 127 'a', ['a'], []), []) :=
  ⟨fun input =>
    ⟨(LegacyScriptGetLine_inv input).1.2, (LegacyScriptGetLine_inv input).2.1.2,
      (LegacyScriptGetLine_inv input).2.2.2⟩,
    by decide⟩

/-- C9: `TitleSequenceAddPark` appends `name` to the save-entry list
exactly when `path` — the source path, not the new name — is absent
from the list; the duplicate check compares the list's entries against
`path`. -/
theorem C9_add_checks_path (seq : TitleSequence) (path name : Chars) (eff : AddParkOracle) :
    ((TitleSequenceAddPark seq path name eff).2.Saves = seq.Saves ++ [name]
      ↔ path ∉ seq.Saves)
  ∧ ((TitleSequenceAddPark seq path name eff).2.Saves = seq.Saves ↔ path ∈ seq.Saves) := by
  have hne : seq.Saves ≠ seq.Saves ++ [name] := by
    intro hx
    have := congrArg List.length hx
    simp at this
  have hsaves : (TitleSequenceAddPark seq path name eff).2.Saves
      = (if path ∈ seq.Saves then seq.Saves else seq.Saves ++ [name]) := by
    unfold TitleSequenceAddPark
    split_ifs <;> simp_all
  by_cases hp : path ∈ seq.Saves
  · rw [hsaves, if_pos hp]
    exact ⟨⟨fun hx => absurd hx hne, fun hx => absurd hp hx⟩,
      ⟨fun _ => hp, fun _ => rfl⟩⟩
  · rw [hsaves, if_neg hp]
    exact ⟨⟨fun _ => hp, fun _ => rfl⟩,
      ⟨fun hx => absurd hx.symm hne, fun hx => absurd hx hp⟩⟩

/-- C10 (code bug): the guard in `TitleSequenceGetParkHandle` is
`index <= seq.Saves.size()`, so at `index == size` (here 1, on a
one-entry list) the function reads `seq.Saves[index]` out of range
(the outer `none`); for `index > size` no handle is produced without
any access, and a valid index yields a handle. -/
theorem C10_handle_guard_off_by_one :
    TitleSequenceGetParkHandle ⟨[], [], ["a.sv6".data], [], false⟩ 1 true = none
  ∧ TitleSequenceGetParkHandle ⟨[], [], ["a.sv6".data], [], false⟩ 2 true = some none
  ∧ TitleSequenceGetParkHandle ⟨[], [], ["a.sv6".data], [], false⟩ 0 true
      = some (some ⟨"a.sv6".data⟩) := by
  refine ⟨by decide, by decide, by decide⟩

/-- C4 (counterexample): the script `LOADSC` (empty scenario argument)
decodes to `LoadSc ""`; encoding that command renders the
`<No scenario name>` placeholder, which re-decodes to a different
command — the re-parsed structure does not match the first decode. -/
theorem C4_loadsc_empty_counterexample :
    LegacyScriptRead [] "LOADSC\n".data = [.LoadSc []]
  ∧ LegacyScriptRead []
      (LegacyScriptWrite
        ⟨"s".data, [], [], LegacyScriptRead [] "LOADSC\n".data, false⟩)
      ≠ LegacyScriptRead [] "LOADSC\n".data := by
  have h1 : LegacyScriptRead [] "LOADSC\n".data = [.LoadSc []] :=
    (LegacyScriptRead_single [] _ "LOADSC".data [] [] (by decide) (by decide)).trans
      (by decide)
  have hw : LegacyScriptWrite ⟨"s".data, [], [], [.LoadSc []], false⟩
      = "# SCRIPT FOR s\nLOADSC <No scenario name>\n".data := by decide
  have h2 : LegacyScriptRead [] "# SCRIPT FOR s\nLOADSC <No scenario name>\n".data
      = [.LoadSc "<No scenario name>".data] := by
    rw [LegacyScriptRead_step [] _ ([], [], []) "LOADSC <No scenario name>\n".data
        (by decide),
      if_pos (by decide), if_neg (by decide)]
    exact (LegacyScriptRead_single [] _ "LOADSC".data "<No scenario name>".data []
      (by decide) (by decide)).trans (by decide)
  refine ⟨h1, ?_⟩
  rw [h1, hw, h2]
  decide

/-- C4 (amended): for every script and well-formed save list (at most
255 entries, names storable in one field, none matching the
`<No save file>` placeholder), provided the decoded command list
contains no `LoadSc` with an empty name, re-decoding the encoded
output reproduces exactly the command sequence of the first decode. -/
theorem C4_encode_decode_roundtrip (script : Chars) (saves : List Chars) (name : Chars)
    (hws : WellFormedSaves saves)
    (hname : ∀ ch ∈ name, (ch == '\n' || ch == '\r') = false)
    (hsc : TitleCommand.LoadSc [] ∉ LegacyScriptRead saves script) :
    LegacyScriptRead saves
      (LegacyScriptWrite ⟨name, [], saves, LegacyScriptRead saves script, false⟩)
      = LegacyScriptRead saves script := by
  apply LegacyScriptWrite_read ⟨name, [], saves, LegacyScriptRead saves script, false⟩
    hws ?_ hname
  intro c hc
  exact LegacyScriptRead_good saves hws.1 script.length script (le_refl _) c hc
    (fun he => hsc (he ▸ hc))

set_option maxRecDepth 10000 in
theorem C4_encode_decode_roundtrip_witness :
    WellFormedSaves ["parkA.sv6".data]
  ∧ (∀ ch ∈ ("seq".data : Chars), (ch == '\n' || ch == '\r') = false)
  ∧ TitleCommand.LoadSc []
      ∉ LegacyScriptRead ["parkA.sv6".data] "LOAD parkA.sv6\nEND\n".data
  ∧ LegacyScriptRead ["parkA.sv6".data]
      (LegacyScriptWrite ⟨"seq".data, [], ["parkA.sv6".data],
        LegacyScriptRead ["parkA.sv6".data] "LOAD parkA.sv6\nEND\n".data, false⟩)
      = LegacyScriptRead ["parkA.sv6".data] "LOAD parkA.sv6\nEND\n".data := by
  have hread : LegacyScriptRead ["parkA.sv6".data] "LOAD parkA.sv6\nEND\n".data
      = [.Load 0, .End] := by
    rw [LegacyScriptRead_step _ _ ("LOAD".data, "parkA.sv6".data, []) "END\n".data
        (by decide),
      if_neg (by decide), if_neg (by decide),
      LegacyScriptRead_single ["parkA.sv6".data] _ "END".data [] [] (by decide) (by decide)]
    decide
  refine ⟨⟨by decide, by decide⟩, by decide, ?_, ?_⟩
  · rw [hread]
    decide
  · exact C4_encode_decode_roundtrip "LOAD parkA.sv6\nEND\n".data ["parkA.sv6".data]
      "seq".data ⟨by decide, by decide⟩ (by decide) (by rw [hread]; decide)

theorem toLowerAscii_keyword_clean (c : Char)
    (h1 : toLowerAscii c ≠ '\n') (h2 : toLowerAscii c ≠ '\r')
    (h3 : toLowerAscii c ≠ '#') (h4 : toLowerAscii c ≠ ' ') :
    cleanChar c = true ∧ c ≠ ' ' := by
  have e1 : c ≠ '\n' := fun e => h1 (by rw [e]; decide)
  have e2 : c ≠ '\r' := fun e => h2 (by rw [e]; decide)
  have e3 : c ≠ '#' := fun e => h3 (by rw [e]; decide)
  have e4 : c ≠ ' ' := fun e => h4 (by rw [e]; decide)
  exact ⟨(cleanChar_iff c).mpr ⟨e1, e2, e3⟩, e4⟩

theorem caseEq_keyword_props (w v : Chars) (hw : strCaseEq w v = true)
    (hv : ∀ x ∈ v.map toLowerAscii, x ≠ '\n' ∧ x ≠ '\r' ∧ x ≠ '#' ∧ x ≠ ' ') :
    cleanStr w = true ∧ ∀ c ∈ w, c ≠ ' ' := by
  have hmap : w.map toLowerAscii = v.map toLowerAscii := (strCaseEq_iff _ _).mp hw
  have key : ∀ c ∈ w, cleanChar c = true ∧ c ≠ ' ' := by
    intro c hc
    have hmem : toLowerAscii c ∈ v.map toLowerAscii := by
      rw [← hmap]
      exact List.mem_map_of_mem _ hc
    obtain ⟨k1, k2, k3, k4⟩ := hv _ hmem
    exact toLowerAscii_keyword_clean c k1 k2 k3 k4
  refine ⟨?_, fun c hc => (key c hc).2⟩
  rw [cleanStr, List.all_eq_true]
  exact fun c hc => (key c hc).1

theorem caseEq_length (w v : Chars) (hw : strCaseEq w v = true) : w.length = v.length := by
  have hmap : w.map toLowerAscii = v.map toLowerAscii := (strCaseEq_iff _ _).mp hw
  have := congrArg List.length hmap
  simpa using this

/-- C7: once the first field is exactly `LOAD` (4 characters) or
`LOADSC` (6 characters) case-insensitively, spaces stop separating
fields and the rest of the line becomes the second field verbatim,
embedded spaces included; once the first field is `FOLLOW`, space
splitting is disabled only for the third field, so the second
(numeric) field is still space-delimited while the rest of the line
after it goes verbatim into the third field. -/
theorem C7_load_and_sprite_modes :
    (∀ w arg more : Chars,
      ((w.length == 4 && strCaseEq w "LOAD".data)
        || (w.length == 6 && strCaseEq w "LOADSC".data)) = true →
      cleanStr arg = true → arg.length ≤ 127 →
      LegacyScriptGetLine (w ++ ' ' :: (arg ++ '\n' :: more)) = ((w, arg, []), more))
  ∧ (∀ w num nm more : Chars,
      (w.length == 6 && strCaseEq w "FOLLOW".data) = true →
      cleanStr num = true → (∀ c ∈ num, c ≠ ' ') → num ≠ [] → num.length ≤ 127 →
      cleanStr nm = true → nm.length ≤ 127 →
      LegacyScriptGetLine (w ++ ' ' :: (num ++ ' ' :: (nm ++ '\n' :: more)))
        = ((w, num, nm), more)) := by
  constructor
  · intro w arg more hkw harg harglen
    have hkw2 := hkw
    rw [Bool.or_eq_true, Bool.and_eq_true, Bool.and_eq_true] at hkw2
    have hwprops : (cleanStr w = true ∧ ∀ c ∈ w, c ≠ ' ') ∧ w ≠ [] ∧ w.length ≤ 127 := by
      rcases hkw2 with ⟨hl, hc⟩ | ⟨hl, hc⟩
      · have hlen := caseEq_length w _ hc
        refine ⟨caseEq_keyword_props w "LOAD".data hc (by decide), ?_, ?_⟩
        · intro hx
          rw [hx] at hlen
          simp at hlen
        · rw [hlen]
          decide
      · have hlen := caseEq_length w _ hc
        refine ⟨caseEq_keyword_props w "LOADSC".data hc (by decide), ?_, ?_⟩
        · intro hx
          rw [hx] at hlen
          simp at hlen
        · rw [hlen]
          decide
    exact getLine_load_line w arg more hkw hwprops.1.1 hwprops.1.2 hwprops.2.1
      hwprops.2.2 harg harglen
  · intro w num nm more hkw hnum hnumsp hnumne hnumlen hnm hnmlen
    have hkw2 := hkw
    rw [Bool.and_eq_true] at hkw2
    obtain ⟨hl6, hcf⟩ := hkw2
    have hlen := caseEq_length w _ hcf
    have hwprops := caseEq_keyword_props w "FOLLOW".data hcf (by decide)
    have hnl : ((w.length == 4 && strCaseEq w "LOAD".data)
        || (w.length == 6 && strCaseEq w "LOADSC".data)) = false := by
      have h4 : (w.length == 4) = false := by
        rw [hlen]
        decide
      have hsc : strCaseEq w "LOADSC".data = false := by
        cases hx : strCaseEq w "LOADSC".data
        · rfl
        · exfalso
          have m1 := (strCaseEq_iff _ _).mp hx
          have m2 := (strCaseEq_iff _ _).mp hcf
          rw [m2] at m1
          exact absurd m1 (by decide)
      simp [h4, hsc]
    exact getLine_follow_line w num nm more hnl hkw hwprops.1 hwprops.2
      (by
        intro hx
        rw [hx] at hlen
        simp at hlen)
      (by rw [hlen]; decide)
      hnum hnumsp hnumne hnumlen hnm hnmlen

theorem C7_load_and_sprite_modes_witness :
    LegacyScriptGetLine "LoAd my park.sv6\nX".data
      = (("LoAd".data, "my park.sv6".data, []), "X".data)
  ∧ LegacyScriptGetLine "FOLLOW 12 my sprite\nY".data
      = (("FOLLOW".data, "12".data, "my sprite".data), "Y".data) := by
  constructor
  · exact C7_load_and_sprite_modes.1 "LoAd".data "my park.sv6".data "X".data
      (by decide) (by decide) (by decide)
  · exact C7_load_and_sprite_modes.2 "FOLLOW".data "12".data "my sprite".data "Y".data
      (by decide) (by decide) (by decide) (by decide) (by decide) (by decide) (by decide)

end TitleSeq
